import Mathlib

/-!
Shallow embedding of the SSD (Simple Statistic Daemon) statistics engine.

The Go source is embedded as executable Lean definitions:
machine integers (Go int) become Int, Go maps become association lists
(List (key × value)), roaring bitmaps become lists of content ids, and
the nondeterministic iteration order of a Go map becomes the list order
of the association list (eviction "ties broken arbitrarily" is realised
by that order).  Mutexes, wall-clock reads and disk I/O are concurrency
and effect plumbing: state is passed explicitly and timestamps are
parameters.  Go integer division by a power of two via the shift
operator, and the truncating conversion int(float64(m)*float64(p)/100.0),
are modelled with exact integer arithmetic; on the non-negative values
that occur in these operations the two agree.
-/

namespace SSD

/-- StatRecord from internal/models: the leaf counter triple. -/
structure StatRecord where
  views : Int
  clicks : Int
  ftr : Int
deriving DecidableEq, Repr

/-- InputStats: one ingress record.  The channel field is present in the
current service layer (see StatisticService and its tests); the views and
clicks are raw string ids. -/
structure InputStats where
  fingerprint : String
  views : List String
  clicks : List String
  channel : String
deriving DecidableEq, Repr

/-! Association-list operations standing in for Go maps. -/

/-- Lookup of a key in an association list (first occurrence wins). -/
def alookup {α β : Type} [DecidableEq α] : List (α × β) → α → Option β
  | [], _ => none
  | (k2, v) :: rest, k => if k2 = k then some v else alookup rest k

/-- Keys of an association list. -/
def akeys {α β : Type} (l : List (α × β)) : List α := l.map Prod.fst

/-- Map-style insert: replace the binding if the key is present, append
otherwise. -/
def ainsert {α β : Type} [DecidableEq α] : List (α × β) → α → β → List (α × β)
  | [], k, v => [(k, v)]
  | (k2, v2) :: rest, k, v =>
    if k2 = k then (k, v) :: rest else (k2, v2) :: ainsert rest k v

/-- Map-style delete of a key. -/
def aerase {α β : Type} [DecidableEq α] (l : List (α × β)) (k : α) :
    List (α × β) :=
  l.filter (fun p => decide (p.1 ≠ k))

theorem alookup_nil {α β : Type} [DecidableEq α] (k : α) :
    alookup ([] : List (α × β)) k = none := rfl

theorem alookup_cons {α β : Type} [DecidableEq α] (k2 k : α) (v : β) (l : List (α × β)) :
    alookup ((k2, v) :: l) k = if k2 = k then some v else alookup l k := rfl

theorem alookup_append {α β : Type} [DecidableEq α] (l1 l2 : List (α × β)) (k : α) :
    alookup (l1 ++ l2) k = ((alookup l1 k).or (alookup l2 k)) := by
  induction l1 with
  | nil => simp [alookup]
  | cons p rest ih =>
    obtain ⟨k2, v⟩ := p
    by_cases h : k2 = k <;> simp [alookup, h, ih]

theorem alookup_ainsert_self {α β : Type} [DecidableEq α]
    (l : List (α × β)) (k : α) (v : β) :
    alookup (ainsert l k v) k = some v := by
  induction l with
  | nil => simp [ainsert, alookup]
  | cons p rest ih =>
    obtain ⟨k2, v2⟩ := p
    by_cases hk : k2 = k <;> simp [ainsert, alookup, hk, ih]

theorem alookup_ainsert_ne {α β : Type} [DecidableEq α]
    (l : List (α × β)) (k k2 : α) (v : β) (h : k2 ≠ k) :
    alookup (ainsert l k v) k2 = alookup l k2 := by
  induction l with
  | nil => simp [ainsert, alookup, Ne.symm h]
  | cons p rest ih =>
    obtain ⟨ka, va⟩ := p
    by_cases hka : ka = k
    · subst hka
      simp [ainsert, alookup, Ne.symm h]
    · by_cases hka2 : ka = k2
      · subst hka2
        simp [ainsert, alookup, hka]
      · simp [ainsert, alookup, hka, hka2, ih]

theorem akeys_ainsert_of_mem {α β : Type} [DecidableEq α]
    (l : List (α × β)) (k : α) (v : β) (h : k ∈ akeys l) :
    akeys (ainsert l k v) = akeys l := by
  induction l with
  | nil => simp [akeys] at h
  | cons p rest ih =>
    obtain ⟨k2, v2⟩ := p
    by_cases hk : k2 = k
    · simp [ainsert, akeys, hk]
    · have hmem : k ∈ akeys rest := by
        simpa [akeys, hk, Ne.symm hk] using h
      have := ih hmem
      simp only [ainsert, hk, if_false]
      simp only [akeys, List.map_cons] at this ⊢
      rw [this]

theorem akeys_ainsert_of_absent {α β : Type} [DecidableEq α]
    (l : List (α × β)) (k : α) (v : β) (h : k ∉ akeys l) :
    akeys (ainsert l k v) = akeys l ++ [k] := by
  induction l with
  | nil => simp [ainsert, akeys]
  | cons p rest ih =>
    obtain ⟨k2, v2⟩ := p
    have hk : k2 ≠ k := by
      intro he
      exact h (by simp [akeys, he])
    have hmem : k ∉ akeys rest := by
      intro hm
      apply h
      simp only [akeys, List.map_cons, List.mem_cons]
      right
      simpa [akeys] using hm
    have := ih hmem
    simp only [ainsert, hk, if_false]
    simp only [akeys, List.map_cons] at this ⊢
    rw [this]
    simp

theorem length_ainsert_of_mem {α β : Type} [DecidableEq α]
    (l : List (α × β)) (k : α) (v : β) (h : k ∈ akeys l) :
    (ainsert l k v).length = l.length := by
  have := akeys_ainsert_of_mem l k v h
  have h1 : (akeys (ainsert l k v)).length = (akeys l).length := by rw [this]
  simpa [akeys] using h1

theorem length_ainsert_of_absent {α β : Type} [DecidableEq α]
    (l : List (α × β)) (k : α) (v : β) (h : k ∉ akeys l) :
    (ainsert l k v).length = l.length + 1 := by
  have := akeys_ainsert_of_absent l k v h
  have h1 : (akeys (ainsert l k v)).length = (akeys l).length + 1 := by
    rw [this]; simp
  simpa [akeys] using h1

/-- A key is in akeys exactly when lookup succeeds, in any association
list (membership does not need distinct keys). -/
theorem alookup_isSome_iff_mem {α β : Type} [DecidableEq α]
    (l : List (α × β)) (k : α) :
    (alookup l k).isSome ↔ k ∈ akeys l := by
  induction l with
  | nil => simp [alookup, akeys]
  | cons p rest ih =>
    obtain ⟨k2, v⟩ := p
    by_cases h : k2 = k <;> simp [alookup, akeys, h, ih]
    · tauto

theorem alookup_eq_none_iff_not_mem {α β : Type} [DecidableEq α]
    (l : List (α × β)) (k : α) :
    alookup l k = none ↔ k ∉ akeys l := by
  rw [← alookup_isSome_iff_mem]
  cases alookup l k <;> simp

/-- Successful lookup exhibits a member of the list. -/
theorem alookup_mem {α β : Type} [DecidableEq α]
    {l : List (α × β)} {k : α} {v : β} (h : alookup l k = some v) :
    (k, v) ∈ l := by
  induction l with
  | nil => simp [alookup] at h
  | cons p rest ih =>
    obtain ⟨k2, v2⟩ := p
    by_cases hk : k2 = k
    · subst hk
      simp [alookup] at h
      simp [h]
    · simp [alookup, hk] at h
      exact List.mem_cons_of_mem _ (ih h)

/-- Every element of an insert is the new binding or an old element. -/
theorem mem_ainsert {α β : Type} [DecidableEq α]
    {l : List (α × β)} {k : α} {v : β} {p : α × β}
    (h : p ∈ ainsert l k v) : p = (k, v) ∨ p ∈ l := by
  induction l with
  | nil => simpa [ainsert] using h
  | cons q rest ih =>
    obtain ⟨k2, v2⟩ := q
    by_cases hk : k2 = k
    · simp only [ainsert, hk, if_true, List.mem_cons] at h
      rcases h with h | h
      · left; exact h
      · right; exact List.mem_cons_of_mem _ h
    · simp only [ainsert, hk, if_false, List.mem_cons] at h
      rcases h with h | h
      · right; simp [h]
      · rcases ih h with h2 | h2
        · left; exact h2
        · right; exact List.mem_cons_of_mem _ h2

/-! Content-id parsing: strconv.Atoi followed by the range guard
(err != nil || key < 0 || key > math.MaxUint32) used throughout the
models package. -/

/-- Value of a digit run; none when the list is empty or holds a
non-digit. -/
def digitsVal : List Char → Nat → Option Nat
  | [], _ => none
  | [c], acc => if c.isDigit then some (acc * 10 + (c.toNat - 48)) else none
  | c :: rest, acc =>
    if c.isDigit then digitsVal rest (acc * 10 + (c.toNat - 48)) else none

/-- strconv.Atoi: optional sign then a nonempty digit run.  The int64
overflow error cannot trigger on the magnitudes these claims exercise
and is not modelled. -/
def atoi : String → Option Int
  | s =>
    match s.data with
    | '+' :: rest => (digitsVal rest 0).map (fun n => (n : Int))
    | '-' :: rest => (digitsVal rest 0).map (fun n => -(n : Int))
    | cs => (digitsVal cs 0).map (fun n => (n : Int))

/-- Parse a content id: Atoi plus the guard key < 0 || key > MaxUint32. -/
def parseContentId (s : String) : Option Nat :=
  match atoi s with
  | none => none
  | some k => if k < 0 ∨ k > 4294967295 then none else some k.toNat

/-! StatStore (the per-channel trend table). -/

/-- StatStore: data map plus the two eviction parameters. -/
structure StatStore where
  data : List (Nat × StatRecord)
  maxRecords : Int
  evictionPercent : Int
deriving DecidableEq, Repr

/-- NewStatStore: evictionPercent <= 0 is replaced with 10. -/
def NewStatStore (maxRecords evictionPercent : Int) : StatStore :=
  { data := []
    maxRecords := maxRecords
    evictionPercent := if evictionPercent ≤ 0 then 10 else evictionPercent }

/-- Eviction target: int(float64(maxRecords)*float64(evictionPercent)/100.0)
with the <= 0 floor to 1.  On the non-negative products that occur here
the float computation truncates exactly like integer division. -/
def evictTarget (maxRecords evictionPercent : Int) : Int :=
  if maxRecords * evictionPercent / 100 ≤ 0 then 1
  else maxRecords * evictionPercent / 100

/-- The eviction ranking relation: ascending by score. -/
def scoreLe (a b : Nat × Int) : Prop := a.2 ≤ b.2

instance : DecidableRel scoreLe := fun a b => inferInstanceAs (Decidable (a.2 ≤ b.2))

instance : IsTotal (Nat × Int) scoreLe := ⟨fun a b => le_total a.2 b.2⟩

instance : IsTrans (Nat × Int) scoreLe := ⟨fun _ _ _ hab hbc => le_trans hab hbc⟩

/-- StatStore.evict: score every entry by its views, sort ascending,
delete the first target ids.  The association-list order plays the role
of the arbitrary Go map iteration order feeding the (unstable) sort. -/
def StatStore.evict (s : StatStore) : StatStore :=
  let target := evictTarget s.maxRecords s.evictionPercent
  let entries := s.data.map (fun p => (p.1, p.2.views))
  let sorted := List.insertionSort scoreLe entries
  let victims := (sorted.take target.toNat).map Prod.fst
  { s with data := s.data.filter (fun p => decide (p.1 ∉ victims)) }

/-- StatStore.evictIfNeeded: run eviction when maxRecords >= 0 and the
store has at least maxRecords entries. -/
def StatStore.evictIfNeeded (s : StatStore) : StatStore :=
  if s.maxRecords < 0 ∨ (s.data.length : Int) < s.maxRecords then s else s.evict

/-- One iteration of the views loop of StatStore.IncStats. -/
def StatStore.incView1 (s : StatStore) (v : String) : StatStore :=
  if v = "" then s else
  match parseContentId v with
  | none => s
  | some id =>
    match alookup s.data id with
    | some rec =>
      let r1 : StatRecord := { rec with views := rec.views + 1 }
      let r2 : StatRecord :=
        if r1.views > 512 then
          { views := (r1.views + 1) / 2, clicks := (r1.clicks + 1) / 2
            ftr := r1.ftr + 1 }
        else r1
      { s with data := ainsert s.data id r2 }
    | none =>
      let s1 := s.evictIfNeeded
      { s1 with data := ainsert s1.data id { views := 1, clicks := 0, ftr := 0 } }

/-- One iteration of the clicks loop of StatStore.IncStats. -/
def StatStore.incClick1 (s : StatStore) (v : String) : StatStore :=
  if v = "" then s else
  match parseContentId v with
  | none => s
  | some id =>
    match alookup s.data id with
    | some rec =>
      { s with data := ainsert s.data id { rec with clicks := rec.clicks + 1 } }
    | none =>
      let s1 := s.evictIfNeeded
      { s1 with data := ainsert s1.data id { views := 0, clicks := 1, ftr := 0 } }

/-- StatStore.IncStats: the views loop followed by the clicks loop. -/
def StatStore.IncStats (s : StatStore) (data : InputStats) : StatStore :=
  data.clicks.foldl StatStore.incClick1 (data.views.foldl StatStore.incView1 s)

/-- StatStore.Get with its negative-key guard. -/
def StatStore.get (s : StatStore) (key : Int) : Option StatRecord :=
  if key < 0 then none else alookup s.data key.toNat

/-- StatStore.Len. -/
def StatStore.len (s : StatStore) : Nat := s.data.length

/-- StatStore.PutData: replace the data with the given map, skipping
negative keys and nil records. -/
def StatStore.putData (s : StatStore) (data : List (Int × Option StatRecord)) :
    StatStore :=
  { s with
    data := data.foldl
      (fun acc p =>
        match p.2 with
        | none => acc
        | some r => if p.1 < 0 then acc else ainsert acc p.1.toNat r)
      [] }

/-! StatisticService: the channel directory, ingest buffer and
aggregation pipeline, following internal/services/StatisticService.go.
Modelled from the spec for the configuration surface: maxChannels is a
hardcoded constant in the committed StatisticService.go but a config
field in the current service (its tests construct
NewStatisticService(config) and read ss.maxChannels), so it is a state
field here; per spec section 4.B the per-channel trend table is the
StatStore with the configured maxRecords and evictionPercent.  The
double buffer is collapsed to a single pending list: AddStats appends
under the mutex and AggregateStats atomically drains, which is the
sequential semantics of the swap. -/

/-- Channel-name ordering used for the cached sorted channel list
(byte-wise comparison as done by sort.Strings on ASCII names). -/
def charListLe : List Char → List Char → Bool
  | [], _ => true
  | _ :: _, [] => false
  | a :: as, b :: bs =>
    if a.toNat < b.toNat then true
    else if b.toNat < a.toNat then false
    else charListLe as bs

/-- String ordering for getChannels. -/
def strLe (a b : String) : Bool := charListLe a.data b.data

/-- The default channel name. -/
def DefaultChannel : String := "default"

/-- StatisticService state: pending ingest buffer, channel directory and
the configuration fields. -/
structure StatisticService where
  buffer : List InputStats
  channels : List (String × StatStore)
  maxChannels : Int
  maxRecords : Int
  evictionPercent : Int
deriving Repr

/-- getOrCreateChannel: return the service unchanged when the channel
exists, refuse (none) when the directory is full, create otherwise. -/
def StatisticService.ensureChannel (ss : StatisticService) (name : String) :
    Option StatisticService :=
  if name ∈ akeys ss.channels then some ss
  else if (ss.channels.length : Int) ≥ ss.maxChannels then none
  else some { ss with
    channels := ss.channels ++ [(name, NewStatStore ss.maxRecords ss.evictionPercent)] }

/-- AddStats: append the input to the active buffer. -/
def StatisticService.addStats (ss : StatisticService) (inp : InputStats) :
    StatisticService :=
  { ss with buffer := ss.buffer ++ [inp] }

/-- Dispatch one drained input into its channel store. -/
def StatisticService.applyToChannel (ss : StatisticService) (name : String)
    (inp : InputStats) : StatisticService :=
  match alookup ss.channels name with
  | none => ss
  | some st => { ss with channels := ainsert ss.channels name (st.IncStats inp) }

/-- One drained input of AggregateStats: empty channel coerces to
default, missing channel is created lazily, overflow is dropped. -/
def StatisticService.aggregateOne (ss : StatisticService) (inp : InputStats) :
    StatisticService :=
  let chName := if inp.channel = "" then DefaultChannel else inp.channel
  match ss.ensureChannel chName with
  | none => ss
  | some ss1 => ss1.applyToChannel chName inp

/-- AggregateStats: drain the buffer and process every input in order. -/
def StatisticService.aggregateStats (ss : StatisticService) : StatisticService :=
  ss.buffer.foldl StatisticService.aggregateOne { ss with buffer := [] }

/-- NewStatisticService: empty directory, then getOrCreateChannel on the
default channel. -/
def NewStatisticService (maxChannels maxRecords evictionPercent : Int) :
    StatisticService :=
  let base : StatisticService :=
    { buffer := [], channels := [], maxChannels := maxChannels
      maxRecords := maxRecords, evictionPercent := evictionPercent }
  match base.ensureChannel DefaultChannel with
  | none => base
  | some ss => ss

/-- GetStatistic: the channel trend map, none for an absent channel. -/
def StatisticService.getStatistic (ss : StatisticService) (channel : String) :
    Option (List (Nat × StatRecord)) :=
  (alookup ss.channels channel).map StatStore.data

/-- GetChannels: the sorted channel-name list. -/
def StatisticService.getChannels (ss : StatisticService) : List String :=
  List.insertionSort (fun a b => strLe a b = true) (akeys ss.channels)

/-- GetRecordCount: the channel store length, 0 for an absent channel. -/
def StatisticService.getRecordCount (ss : StatisticService) (channel : String) :
    Nat :=
  match alookup ss.channels channel with
  | none => 0
  | some st => st.len

/-- An externally driven call sequence: AddStats or AggregateStats. -/
inductive SvcOp where
  | add (inp : InputStats)
  | aggregate
deriving Repr

/-- Run a sequence of calls against the service. -/
def StatisticService.run (ss : StatisticService) : List SvcOp → StatisticService
  | [] => ss
  | SvcOp.add inp :: rest => (ss.addStats inp).run rest
  | SvcOp.aggregate :: rest => ss.aggregateStats.run rest

/-! Helper lemmas about ainsert and filtered association lists, used to
characterise eviction. -/

theorem ainsert_eq_append_of_absent {α β : Type} [DecidableEq α]
    (l : List (α × β)) (k : α) (v : β) (h : alookup l k = none) :
    ainsert l k v = l ++ [(k, v)] := by
  induction l with
  | nil => simp [ainsert]
  | cons p rest ih =>
    obtain ⟨k2, v2⟩ := p
    by_cases hk : k2 = k
    · simp [alookup, hk] at h
    · simp only [alookup, hk, if_false] at h
      simp [ainsert, hk, ih h]

theorem akeys_filter_sublist {α β : Type} (l : List (α × β)) (p : α × β → Bool) :
    List.Sublist (akeys (l.filter p)) (akeys l) :=
  (List.filter_sublist l).map Prod.fst

theorem length_filter_ne_key {β : Type} (data : List (Nat × β)) (v : Nat)
    (hnd : (akeys data).Nodup) (hv : v ∈ akeys data) :
    (data.filter (fun p => decide (p.1 ≠ v))).length = data.length - 1 := by
  induction data with
  | nil => simp [akeys] at hv
  | cons p rest ih =>
    obtain ⟨k, r⟩ := p
    simp only [akeys, List.map_cons, List.nodup_cons] at hnd
    by_cases hk : k = v
    · subst hk
      have hall : rest.filter (fun p => decide (p.1 ≠ k)) = rest := by
        apply List.filter_eq_self.mpr
        simp only [decide_eq_true_iff]
        intro a ha he
        exact hnd.1 (he ▸ List.mem_map_of_mem Prod.fst ha)
      rw [List.filter_cons, if_neg (by simp)]
      simp only [List.length_cons, Nat.add_sub_cancel]
      rw [hall]
    · have hvrest : v ∈ akeys rest := by
        simpa [akeys, hk, Ne.symm hk] using hv
      have hlen : rest.length ≥ 1 := by
        cases rest with
        | nil => simp [akeys] at hvrest
        | cons q t => simp
      have := ih hnd.2 hvrest
      simp only [List.filter_cons, hk, decide_eq_true_iff, ne_eq,
        not_false_iff, if_pos]
      simp only [List.length_cons, this]
      omega

theorem mem_akeys_filter_ne {β : Type} (data : List (Nat × β)) (v k : Nat)
    (hk : k ≠ v) (h : k ∈ akeys data) :
    k ∈ akeys (data.filter (fun p => decide (p.1 ≠ v))) := by
  simp only [akeys, List.mem_map] at h ⊢
  obtain ⟨q, hq, hqk⟩ := h
  refine ⟨q, ?_, hqk⟩
  rw [List.mem_filter]
  exact ⟨hq, by simp [hqk, hk]⟩

theorem length_filter_not_mem {β : Type} (victims : List Nat) :
    ∀ (data : List (Nat × β)), (akeys data).Nodup → victims.Nodup →
    (∀ k ∈ victims, k ∈ akeys data) →
    (data.filter (fun p => decide (p.1 ∉ victims))).length
      = data.length - victims.length := by
  induction victims with
  | nil =>
    intro data _ _ _
    simp
  | cons v vs ih =>
    intro data hnd hv hsub
    have hsplit : data.filter (fun p => decide (p.1 ∉ v :: vs))
        = (data.filter (fun p => decide (p.1 ≠ v))).filter
            (fun p => decide (p.1 ∉ vs)) := by
      rw [List.filter_filter]
      apply List.filter_congr
      intro p _
      by_cases h1 : p.1 = v <;> by_cases h2 : p.1 ∈ vs <;> simp [h1, h2]
    have hvmem : v ∈ akeys data := hsub v (by simp)
    have hone := length_filter_ne_key data v hnd hvmem
    have hnd2 : (akeys (data.filter (fun p => decide (p.1 ≠ v)))).Nodup :=
      hnd.sublist (akeys_filter_sublist _ _)
    have hsub2 : ∀ k ∈ vs, k ∈ akeys (data.filter (fun p => decide (p.1 ≠ v))) := by
      intro k hkvs
      have hknev : k ≠ v := by
        intro he
        subst he
        exact (List.nodup_cons.mp hv).1 hkvs
      exact mem_akeys_filter_ne data v k hknev (hsub k (by simp [hkvs]))
    have := ih _ hnd2 (List.nodup_cons.mp hv).2 hsub2
    rw [hsplit, this, hone]
    have hlen1 : data.length ≥ 1 := by
      cases data with
      | nil => simp [akeys] at hvmem
      | cons q t => simp
    simp only [List.length_cons]
    omega

/-- The ids StatStore.evict deletes: keys of the first target entries of
the score-sorted entry list. -/
def StatStore.victims (s : StatStore) : List Nat :=
  ((List.insertionSort scoreLe (s.data.map (fun p => (p.1, p.2.views)))).take
    (evictTarget s.maxRecords s.evictionPercent).toNat).map Prod.fst

theorem evict_data_eq (s : StatStore) :
    (s.evict).data = s.data.filter (fun p => decide (p.1 ∉ s.victims)) := rfl

theorem victims_length (s : StatStore) :
    s.victims.length
      = min (evictTarget s.maxRecords s.evictionPercent).toNat s.len := by
  simp [StatStore.victims, StatStore.len, List.length_insertionSort]

theorem victims_keys_perm (s : StatStore) :
    (List.map Prod.fst
        (List.insertionSort scoreLe (s.data.map (fun p => (p.1, p.2.views))))).Perm
      (akeys s.data) := by
  have h1 := List.perm_insertionSort scoreLe (s.data.map (fun p => (p.1, p.2.views)))
  have h2 := h1.map Prod.fst
  have h3 : List.map Prod.fst (s.data.map (fun p => (p.1, p.2.views)))
      = akeys s.data := by
    simp [akeys, List.map_map]
  rwa [h3] at h2

theorem victims_nodup (s : StatStore) (h : (akeys s.data).Nodup) :
    s.victims.Nodup := by
  have hperm := victims_keys_perm s
  have hnd : (List.map Prod.fst
      (List.insertionSort scoreLe (s.data.map (fun p => (p.1, p.2.views))))).Nodup :=
    hperm.symm.nodup h
  have hsub : List.Sublist s.victims (List.map Prod.fst
      (List.insertionSort scoreLe (s.data.map (fun p => (p.1, p.2.views))))) := by
    rw [StatStore.victims, List.map_take]
    exact List.take_sublist _ _
  exact hnd.sublist hsub

theorem victims_sub (s : StatStore) : ∀ k ∈ s.victims, k ∈ akeys s.data := by
  intro k hk
  have hsub : List.Sublist s.victims (List.map Prod.fst
      (List.insertionSort scoreLe (s.data.map (fun p => (p.1, p.2.views))))) := by
    rw [StatStore.victims, List.map_take]
    exact List.take_sublist _ _
  exact (victims_keys_perm s).mem_iff.mp (hsub.subset hk)

theorem evict_len (s : StatStore) (h : (akeys s.data).Nodup) :
    (s.evict).len
      = s.len - min (evictTarget s.maxRecords s.evictionPercent).toNat s.len := by
  have := length_filter_not_mem s.victims s.data h (victims_nodup s h) (victims_sub s)
  rw [← victims_length s]
  exact this

/-- Characterisation of incView1 on an absent id when the store is at or
over capacity: eviction runs, then the fresh record is appended. -/
theorem incView1_absent_full (s : StatStore) (v : String) (id : Nat)
    (hne : v ≠ "") (hp : parseContentId v = some id)
    (habs : alookup s.data id = none)
    (hmax : 0 ≤ s.maxRecords) (hfull : s.maxRecords ≤ (s.len : Int)) :
    (s.incView1 v).data
      = s.data.filter (fun p => decide (p.1 ∉ s.victims))
          ++ [(id, ⟨1, 0, 0⟩)] := by
  have hcond : ¬ (s.maxRecords < 0 ∨ (s.data.length : Int) < s.maxRecords) := by
    push_neg
    exact ⟨hmax, hfull⟩
  have hevict : s.evictIfNeeded = s.evict := by
    simp [StatStore.evictIfNeeded, hcond]
  have habs2 : alookup (s.evict).data id = none := by
    rw [alookup_eq_none_iff_not_mem] at habs ⊢
    intro hm
    rw [evict_data_eq] at hm
    exact habs ((akeys_filter_sublist _ _).subset hm)
  simp only [StatStore.incView1, hne, if_false, hp, habs, hevict]
  rw [ainsert_eq_append_of_absent _ _ _ habs2, evict_data_eq]

/-! Claim theorems for the StatStore. -/

/-- C2: with the default-channel StatStore holding {views 512, clicks 100,
ftr 0} for id 1, addStats with views ["1"] followed by aggregateStats
yields {views 257, clicks 50, ftr 1}; and in general a view increment on
an existing record adds 1 to views and, when views then exceeds 512,
replaces views with (views+1) >> 1, clicks with (clicks+1) >> 1, and
increments ftr by 1. -/
theorem C2_halving_crossover :
    (((StatisticService.addStats
        { buffer := []
          channels := [(DefaultChannel,
            { data := [(1, ⟨512, 100, 0⟩)], maxRecords := -1, evictionPercent := 10 })]
          maxChannels := 1000, maxRecords := -1, evictionPercent := 10 }
        { fingerprint := "", views := ["1"], clicks := [], channel := "default" }).aggregateStats).getStatistic
        DefaultChannel = some [(1, ⟨257, 50, 1⟩)])
    ∧ ∀ (s : StatStore) (v : String) (id : Nat) (rec : StatRecord),
        v ≠ "" → parseContentId v = some id → alookup s.data id = some rec →
        alookup (s.incView1 v).data id =
          some (if rec.views + 1 > 512 then
                  ⟨(rec.views + 1 + 1) / 2, (rec.clicks + 1) / 2, rec.ftr + 1⟩
                else ⟨rec.views + 1, rec.clicks, rec.ftr⟩) := by
  constructor
  · decide
  · intro s v id rec hne hp hl
    simp only [StatStore.incView1, hne, if_false, hp, hl]
    by_cases hgt : rec.views + 1 > 512
    · simp only [hgt, if_pos, alookup_ainsert_self]
    · simp only [hgt, if_neg, alookup_ainsert_self]

/-- Witness for C2: the general increment law evaluated on the concrete
record {512, 100, 0}. -/
theorem C2_halving_crossover_witness :
    alookup ((StatStore.incView1
        { data := [(1, ⟨512, 100, 0⟩)], maxRecords := -1, evictionPercent := 10 }
        "1").data) 1 = some ⟨257, 50, 1⟩ := by
  have h := C2_halving_crossover.2
    { data := [(1, ⟨512, 100, 0⟩)], maxRecords := -1, evictionPercent := 10 }
    "1" 1 ⟨512, 100, 0⟩ (by decide) (by decide) (by decide)
  norm_num at h
  exact h

/-- C3 counterexample: a store of 5 records with maxRecords 5 and
evictionPercent 30.  The claim computes the eviction count as the
ceiling max(1, ceil(5*30/100)) = 2, so after inserting one new id the
store would hold 5 - 2 + 1 = 4 records; the code truncates (floor),
evicts 1 and leaves 5 records. -/
theorem C3_eviction_ceiling_counterexample :
    (StatStore.IncStats
        { data := [(1, ⟨1, 0, 0⟩), (2, ⟨5, 0, 0⟩), (3, ⟨2, 0, 0⟩),
                   (4, ⟨9, 0, 0⟩), (5, ⟨7, 0, 0⟩)]
          maxRecords := 5, evictionPercent := 30 }
        { fingerprint := "", views := ["99"], clicks := [], channel := "" }).len = 5
    ∧ max 1 ((5 * 30 + 99) / 100 : Int) = 2
    ∧ (5 : Nat) - 2 + 1 ≠ 5 := by
  refine ⟨by decide, by decide, by decide⟩

/-- C3 amended: when incStats inserts a previously absent id into a
store already holding at least maxRecords >= 0 entries, exactly
min(len, max(1, floor(maxRecords * evictionPercent / 100))) entries
with the smallest views values are deleted before the insertion (ties
broken arbitrarily); the count uses the floor (Go truncating
conversion), not the ceiling. -/
theorem C3_eviction_floor_amended (s : StatStore) (v : String) (id : Nat)
    (hne : v ≠ "") (hp : parseContentId v = some id)
    (habs : alookup s.data id = none)
    (hnd : (akeys s.data).Nodup)
    (hmax : 0 ≤ s.maxRecords) (hfull : s.maxRecords ≤ (s.len : Int)) :
    ∃ sortedE : List (Nat × Int),
      sortedE.Perm (s.data.map (fun p => (p.1, p.2.views)))
      ∧ List.Sorted scoreLe sortedE
      ∧ (s.incView1 v).data
          = s.data.filter (fun p => decide (p.1 ∉
              (sortedE.take (evictTarget s.maxRecords s.evictionPercent).toNat).map Prod.fst))
            ++ [(id, ⟨1, 0, 0⟩)]
      ∧ (s.incView1 v).len
          = s.len - min (evictTarget s.maxRecords s.evictionPercent).toNat s.len + 1 := by
  refine ⟨List.insertionSort scoreLe (s.data.map (fun p => (p.1, p.2.views))),
    List.perm_insertionSort _ _, List.sorted_insertionSort _ _, ?_, ?_⟩
  · exact incView1_absent_full s v id hne hp habs hmax hfull
  · have hdata := incView1_absent_full s v id hne hp habs hmax hfull
    have hlen : (s.incView1 v).len
        = (s.data.filter (fun p => decide (p.1 ∉ s.victims))).length + 1 := by
      simp [StatStore.len, hdata, StatStore.victims]
    rw [hlen, ← evict_data_eq, ← StatStore.len, evict_len s hnd]

/-- Witness for C3 amended: the 5-record store at 30 percent. -/
theorem C3_eviction_floor_amended_witness :
    ∃ sortedE : List (Nat × Int),
      sortedE.Perm ([(1, ⟨1, 0, 0⟩), (2, ⟨5, 0, 0⟩), (3, ⟨2, 0, 0⟩),
                     (4, ⟨9, 0, 0⟩), (5, ⟨7, 0, 0⟩)].map
        (fun p : Nat × StatRecord => (p.1, p.2.views)))
      ∧ List.Sorted scoreLe sortedE
      ∧ (StatStore.incView1
            { data := [(1, ⟨1, 0, 0⟩), (2, ⟨5, 0, 0⟩), (3, ⟨2, 0, 0⟩),
                       (4, ⟨9, 0, 0⟩), (5, ⟨7, 0, 0⟩)]
              maxRecords := 5, evictionPercent := 30 } "99").data
          = [(1, ⟨1, 0, 0⟩), (2, ⟨5, 0, 0⟩), (3, ⟨2, 0, 0⟩),
             (4, ⟨9, 0, 0⟩), (5, ⟨7, 0, 0⟩)].filter (fun p => decide (p.1 ∉
              (sortedE.take (evictTarget 5 30).toNat).map Prod.fst))
            ++ [(99, ⟨1, 0, 0⟩)]
      ∧ (StatStore.incView1
            { data := [(1, ⟨1, 0, 0⟩), (2, ⟨5, 0, 0⟩), (3, ⟨2, 0, 0⟩),
                       (4, ⟨9, 0, 0⟩), (5, ⟨7, 0, 0⟩)]
              maxRecords := 5, evictionPercent := 30 } "99").len
          = 5 - min (evictTarget 5 30).toNat 5 + 1 :=
  C3_eviction_floor_amended
    { data := [(1, ⟨1, 0, 0⟩), (2, ⟨5, 0, 0⟩), (3, ⟨2, 0, 0⟩),
               (4, ⟨9, 0, 0⟩), (5, ⟨7, 0, 0⟩)]
      maxRecords := 5, evictionPercent := 30 } "99" 99
    (by decide) (by decide) (by decide) (by decide) (by decide) (by decide)

/-! Length bounds for eviction, used by the C4 invariant. -/

theorem evictTarget_pos (m p : Int) : 1 ≤ evictTarget m p := by
  unfold evictTarget
  split <;> omega

theorem victims_ne_nil (s : StatStore) (h : 1 ≤ s.len) : s.victims ≠ [] := by
  unfold StatStore.victims
  intro he
  rw [List.map_eq_nil_iff, List.take_eq_nil_iff] at he
  rcases he with he | he
  · have := evictTarget_pos s.maxRecords s.evictionPercent
    omega
  · have hlen := List.length_insertionSort scoreLe
      (s.data.map (fun p => (p.1, p.2.views)))
    rw [he] at hlen
    simp only [List.length_nil, List.length_map] at hlen
    have : s.len = 0 := by simpa [StatStore.len] using hlen.symm
    omega

theorem evict_len_le (s : StatStore) (h : 1 ≤ s.len) :
    (s.evict).len ≤ s.len - 1 := by
  obtain ⟨w, hw⟩ := List.exists_mem_of_ne_nil _ (victims_ne_nil s h)
  have hwk : w ∈ akeys s.data := victims_sub s w hw
  obtain ⟨q, hq, hqw⟩ := List.mem_map.mp hwk
  have hsplit : s.data.length
      = (s.data.filter (fun p => decide (p.1 ∉ s.victims))).length
        + (s.data.filter (fun p => !(decide (p.1 ∉ s.victims)))).length :=
    List.length_eq_length_filter_add _
  have hqneg : q ∈ s.data.filter (fun p => !(decide (p.1 ∉ s.victims))) := by
    rw [List.mem_filter]
    refine ⟨hq, ?_⟩
    simp [hqw, hw]
  have hpos : 1 ≤ (s.data.filter (fun p => !(decide (p.1 ∉ s.victims)))).length :=
    List.length_pos.mpr (List.ne_nil_of_mem hqneg)
  have hlen : (s.evict).len = (s.data.filter (fun p => decide (p.1 ∉ s.victims))).length := by
    simp [StatStore.len, evict_data_eq]
  simp only [StatStore.len] at *
  omega

theorem evict_fields (s : StatStore) :
    (s.evict).maxRecords = s.maxRecords ∧ (s.evict).evictionPercent = s.evictionPercent :=
  ⟨rfl, rfl⟩

theorem evictIfNeeded_fields (s : StatStore) :
    (s.evictIfNeeded).maxRecords = s.maxRecords
      ∧ (s.evictIfNeeded).evictionPercent = s.evictionPercent := by
  unfold StatStore.evictIfNeeded
  split <;> exact ⟨rfl, rfl⟩

/-- A fresh id is still absent after eviction. -/
theorem alookup_evictIfNeeded_none (s : StatStore) (id : Nat)
    (h : alookup s.data id = none) :
    alookup (s.evictIfNeeded).data id = none := by
  unfold StatStore.evictIfNeeded
  split
  · exact h
  · rw [alookup_eq_none_iff_not_mem] at h ⊢
    intro hm
    rw [evict_data_eq] at hm
    exact h ((akeys_filter_sublist _ _).subset hm)

/-- Core length bound: the insertion step never pushes the store above
max 1 maxRecords when maxRecords is non-negative. -/
theorem insertStep_len_bound (s : StatStore) (id : Nat) (r : StatRecord)
    (hm : 0 ≤ s.maxRecords) (hb : (s.len : Int) ≤ max 1 s.maxRecords)
    (habs : alookup s.data id = none) :
    (((ainsert (s.evictIfNeeded).data id r).length : Int)) ≤ max 1 s.maxRecords := by
  have habs2 := alookup_evictIfNeeded_none s id habs
  have hlen : (ainsert (s.evictIfNeeded).data id r).length
      = (s.evictIfNeeded).len + 1 := by
    rw [length_ainsert_of_absent _ _ _
      ((alookup_eq_none_iff_not_mem _ _).mp habs2)]
    rfl
  rw [hlen]
  unfold StatStore.evictIfNeeded
  split
  · rename_i hcond
    rcases hcond with hneg | hlt
    · omega
    · simp only [StatStore.len] at *
      omega
  · rename_i hcond
    push_neg at hcond
    by_cases hz : 1 ≤ s.len
    · have := evict_len_le s hz
      simp only [StatStore.len] at *
      omega
    · have h0 : s.len = 0 := by omega
      have : (s.evict).len ≤ s.len := by
        simp only [StatStore.len, evict_data_eq]
        exact List.length_filter_le _ _
      simp only [StatStore.len] at *
      omega

/-! Branch equations for the two per-id loop bodies. -/

theorem incView1_eq_skip (s : StatStore) (v : String)
    (h : v = "" ∨ parseContentId v = none) : s.incView1 v = s := by
  rcases h with h | h
  · simp [StatStore.incView1, h]
  · by_cases hv : v = ""
    · simp [StatStore.incView1, hv]
    · simp [StatStore.incView1, hv, h]

theorem incView1_eq_present (s : StatStore) (v : String) (id : Nat)
    (rec : StatRecord) (hv : v ≠ "") (hp : parseContentId v = some id)
    (hl : alookup s.data id = some rec) :
    s.incView1 v = { s with data := (ainsert s.data id
      (if rec.views + 1 > 512 then
        ⟨(rec.views + 1 + 1) / 2, (rec.clicks + 1) / 2, rec.ftr + 1⟩
      else ⟨rec.views + 1, rec.clicks, rec.ftr⟩)) } := by
  simp only [StatStore.incView1, hv, if_false, hp, hl]

theorem incView1_eq_absent (s : StatStore) (v : String) (id : Nat)
    (hv : v ≠ "") (hp : parseContentId v = some id)
    (hl : alookup s.data id = none) :
    s.incView1 v = { s.evictIfNeeded with
      data := ainsert (s.evictIfNeeded).data id ⟨1, 0, 0⟩ } := by
  simp only [StatStore.incView1, hv, if_false, hp, hl]

theorem incClick1_eq_skip (s : StatStore) (v : String)
    (h : v = "" ∨ parseContentId v = none) : s.incClick1 v = s := by
  rcases h with h | h
  · simp [StatStore.incClick1, h]
  · by_cases hv : v = ""
    · simp [StatStore.incClick1, hv]
    · simp [StatStore.incClick1, hv, h]

theorem incClick1_eq_present (s : StatStore) (v : String) (id : Nat)
    (rec : StatRecord) (hv : v ≠ "") (hp : parseContentId v = some id)
    (hl : alookup s.data id = some rec) :
    s.incClick1 v = { s with data := (ainsert s.data id
      ⟨rec.views, rec.clicks + 1, rec.ftr⟩) } := by
  simp only [StatStore.incClick1, hv, if_false, hp, hl]

theorem incClick1_eq_absent (s : StatStore) (v : String) (id : Nat)
    (hv : v ≠ "") (hp : parseContentId v = some id)
    (hl : alookup s.data id = none) :
    s.incClick1 v = { s.evictIfNeeded with
      data := ainsert (s.evictIfNeeded).data id ⟨0, 1, 0⟩ } := by
  simp only [StatStore.incClick1, hv, if_false, hp, hl]

theorem incView1_invariant (s : StatStore) (v : String)
    (hm : 0 ≤ s.maxRecords) (hb : (s.len : Int) ≤ max 1 s.maxRecords) :
    (s.incView1 v).maxRecords = s.maxRecords
      ∧ (s.incView1 v).evictionPercent = s.evictionPercent
      ∧ ((s.incView1 v).len : Int) ≤ max 1 s.maxRecords := by
  by_cases hv : v = ""
  · rw [incView1_eq_skip s v (Or.inl hv)]
    exact ⟨rfl, rfl, hb⟩
  · cases hp : parseContentId v with
    | none =>
      rw [incView1_eq_skip s v (Or.inr hp)]
      exact ⟨rfl, rfl, hb⟩
    | some id =>
      cases hl : alookup s.data id with
      | some rec =>
        rw [incView1_eq_present s v id rec hv hp hl]
        refine ⟨rfl, rfl, ?_⟩
        have hmem : id ∈ akeys s.data :=
          (alookup_isSome_iff_mem _ _).mp (by rw [hl]; rfl)
        dsimp only [StatStore.len]
        rw [length_ainsert_of_mem _ _ _ hmem]
        exact hb
      | none =>
        rw [incView1_eq_absent s v id hv hp hl]
        have hf := evictIfNeeded_fields s
        exact ⟨hf.1, hf.2, insertStep_len_bound s id ⟨1, 0, 0⟩ hm hb hl⟩

theorem incClick1_invariant (s : StatStore) (v : String)
    (hm : 0 ≤ s.maxRecords) (hb : (s.len : Int) ≤ max 1 s.maxRecords) :
    (s.incClick1 v).maxRecords = s.maxRecords
      ∧ (s.incClick1 v).evictionPercent = s.evictionPercent
      ∧ ((s.incClick1 v).len : Int) ≤ max 1 s.maxRecords := by
  by_cases hv : v = ""
  · rw [incClick1_eq_skip s v (Or.inl hv)]
    exact ⟨rfl, rfl, hb⟩
  · cases hp : parseContentId v with
    | none =>
      rw [incClick1_eq_skip s v (Or.inr hp)]
      exact ⟨rfl, rfl, hb⟩
    | some id =>
      cases hl : alookup s.data id with
      | some rec =>
        rw [incClick1_eq_present s v id rec hv hp hl]
        refine ⟨rfl, rfl, ?_⟩
        have hmem : id ∈ akeys s.data :=
          (alookup_isSome_iff_mem _ _).mp (by rw [hl]; rfl)
        dsimp only [StatStore.len]
        rw [length_ainsert_of_mem _ _ _ hmem]
        exact hb
      | none =>
        rw [incClick1_eq_absent s v id hv hp hl]
        have hf := evictIfNeeded_fields s
        exact ⟨hf.1, hf.2, insertStep_len_bound s id ⟨0, 1, 0⟩ hm hb hl⟩

theorem incStats_invariant (s : StatStore) (inp : InputStats)
    (hm : 0 ≤ s.maxRecords) (hb : (s.len : Int) ≤ max 1 s.maxRecords) :
    (s.IncStats inp).maxRecords = s.maxRecords
      ∧ ((s.IncStats inp).len : Int) ≤ max 1 s.maxRecords := by
  unfold StatStore.IncStats
  have hviews : ∀ (vs : List String) (t : StatStore),
      t.maxRecords = s.maxRecords → (t.len : Int) ≤ max 1 s.maxRecords →
      (vs.foldl StatStore.incView1 t).maxRecords = s.maxRecords
        ∧ ((vs.foldl StatStore.incView1 t).len : Int) ≤ max 1 s.maxRecords := by
    intro vs
    induction vs with
    | nil => intro t h1 h2; exact ⟨h1, h2⟩
    | cons v rest ih =>
      intro t h1 h2
      have hstep := incView1_invariant t v (h1 ▸ hm) (h1 ▸ h2)
      exact ih _ (hstep.1.trans h1) (h1 ▸ hstep.2.2)
  have hclicks : ∀ (vs : List String) (t : StatStore),
      t.maxRecords = s.maxRecords → (t.len : Int) ≤ max 1 s.maxRecords →
      (vs.foldl StatStore.incClick1 t).maxRecords = s.maxRecords
        ∧ ((vs.foldl StatStore.incClick1 t).len : Int) ≤ max 1 s.maxRecords := by
    intro vs
    induction vs with
    | nil => intro t h1 h2; exact ⟨h1, h2⟩
    | cons v rest ih =>
      intro t h1 h2
      have hstep := incClick1_invariant t v (h1 ▸ hm) (h1 ▸ h2)
      exact ih _ (hstep.1.trans h1) (h1 ▸ hstep.2.2)
  have h1 := hviews inp.views s rfl hb
  exact hclicks inp.clicks _ h1.1 h1.2

/-! Service-level invariant carrying the C4 bound across every channel. -/

/-- Every channel store carries the configured maxRecords and respects
the max 1 maxRecords length bound. -/
def SvcBounded (m : Int) (ss : StatisticService) : Prop :=
  ss.maxRecords = m ∧
    ∀ p ∈ ss.channels, p.2.maxRecords = m ∧ ((p.2.len : Int)) ≤ max 1 m

theorem svcBounded_ensureChannel {m : Int} {ss ss1 : StatisticService}
    {name : String} (h : SvcBounded m ss)
    (he : ss.ensureChannel name = some ss1) : SvcBounded m ss1 := by
  unfold StatisticService.ensureChannel at he
  split at he
  · cases he
    exact h
  · split at he
    · cases he
    · cases he
      refine ⟨h.1, ?_⟩
      intro p hp
      rw [List.mem_append] at hp
      rcases hp with hp | hp
      · exact h.2 p hp
      · simp only [List.mem_singleton] at hp
        subst hp
        refine ⟨h.1 ▸ rfl, ?_⟩
        simp [NewStatStore, StatStore.len]

theorem svcBounded_applyToChannel {m : Int} {ss : StatisticService}
    {name : String} {inp : InputStats} (h : SvcBounded m ss)
    (hm : 0 ≤ m) : SvcBounded m (ss.applyToChannel name inp) := by
  unfold StatisticService.applyToChannel
  cases hl : alookup ss.channels name with
  | none => exact h
  | some st =>
    have hst := h.2 _ (alookup_mem hl)
    refine ⟨h.1, ?_⟩
    intro p hp
    rcases mem_ainsert hp with hp | hp
    · subst hp
      have hinc := incStats_invariant st inp (hst.1 ▸ hm) (hst.1 ▸ hst.2)
      exact ⟨hinc.1.trans hst.1, hst.1 ▸ hinc.2⟩
    · exact h.2 p hp

theorem svcBounded_aggregateOne {m : Int} {ss : StatisticService}
    {inp : InputStats} (h : SvcBounded m ss) (hm : 0 ≤ m) :
    SvcBounded m (ss.aggregateOne inp) := by
  have hdef : ss.aggregateOne inp =
      (match ss.ensureChannel (if inp.channel = "" then DefaultChannel else inp.channel) with
       | none => ss
       | some ss1 =>
         ss1.applyToChannel (if inp.channel = "" then DefaultChannel else inp.channel) inp) := rfl
  rw [hdef]
  cases he : ss.ensureChannel (if inp.channel = "" then DefaultChannel else inp.channel) with
  | none => exact h
  | some ss1 => exact svcBounded_applyToChannel (svcBounded_ensureChannel h he) hm

theorem svcBounded_aggregate {m : Int} {ss : StatisticService}
    (h : SvcBounded m ss) (hm : 0 ≤ m) :
    SvcBounded m ss.aggregateStats := by
  unfold StatisticService.aggregateStats
  have hbase : SvcBounded m { ss with buffer := [] } := ⟨h.1, h.2⟩
  generalize { ss with buffer := ([] : List InputStats) } = t at hbase
  induction ss.buffer generalizing t with
  | nil => exact hbase
  | cons inp rest ih =>
    exact ih _ (svcBounded_aggregateOne hbase hm)

theorem svcBounded_run {m : Int} {ss : StatisticService}
    (h : SvcBounded m ss) (hm : 0 ≤ m) (ops : List SvcOp) :
    SvcBounded m (ss.run ops) := by
  induction ops generalizing ss with
  | nil => exact h
  | cons op rest ih =>
    cases op with
    | add inp =>
      exact ih ⟨h.1, h.2⟩
    | aggregate =>
      exact ih (svcBounded_aggregate h hm)

theorem svcBounded_new (maxCh m eP : Int) :
    SvcBounded m (NewStatisticService maxCh m eP) := by
  unfold NewStatisticService StatisticService.ensureChannel
  by_cases h0 : ((([] : List (String × StatStore)).length : Int) ≥ maxCh)
  · simp only [akeys, List.map_nil, List.not_mem_nil, if_false, h0, if_true]
    exact ⟨rfl, by intro p hp; simp at hp⟩
  · simp only [akeys, List.map_nil, List.not_mem_nil, if_false, h0]
    refine ⟨rfl, ?_⟩
    intro p hp
    simp only [List.nil_append, List.mem_singleton] at hp
    subst hp
    exact ⟨rfl, by simp [NewStatStore, StatStore.len]⟩

/-- C4 counterexample: with maxRecords = 0 the default channel store
reaches one record after a single addStats and aggregateStats, so the
bound len <= maxRecords fails at maxRecords = 0. -/
theorem C4_maxRecords_zero_counterexample :
    (((NewStatisticService 1000 0 10).run
        [SvcOp.add { fingerprint := "", views := ["1"], clicks := [], channel := "" },
         SvcOp.aggregate]).getRecordCount DefaultChannel) = 1
    ∧ ¬ ((1 : Int) ≤ 0) := by
  refine ⟨by decide, by decide⟩

/-- C4 amended: starting from a fresh service with configured
maxRecords >= 0, after any finite sequence of addStats and
aggregateStats calls every channel store holds at most
max 1 maxRecords entries; in particular the claimed bound
len <= maxRecords holds whenever maxRecords >= 1, while maxRecords = 0
admits a single record. -/
theorem C4_store_bound_amended (maxCh m eP : Int) (hm : 0 ≤ m)
    (ops : List SvcOp) (ch : String) :
    ((((NewStatisticService maxCh m eP).run ops).getRecordCount ch : Int)
        ≤ max 1 m)
    ∧ (1 ≤ m →
        (((NewStatisticService maxCh m eP).run ops).getRecordCount ch : Int) ≤ m) := by
  have hinv := svcBounded_run (svcBounded_new maxCh m eP) hm ops
  have hbound : ((((NewStatisticService maxCh m eP).run ops).getRecordCount ch : Int)
      ≤ max 1 m) := by
    unfold StatisticService.getRecordCount
    cases hl : alookup ((NewStatisticService maxCh m eP).run ops).channels ch with
    | none =>
      have h0 : (0 : Int) ≤ max 1 m := le_max_of_le_left zero_le_one
      simp only [Nat.cast_zero]
      exact h0
    | some st => exact (hinv.2 _ (alookup_mem hl)).2
  refine ⟨hbound, fun h1 => ?_⟩
  have : max 1 m = m := max_eq_right h1
  rwa [this] at hbound

/-- Witness for C4 amended: one insert at maxRecords = 0 stays within
max 1 0 = 1. -/
theorem C4_store_bound_amended_witness :
    ((((NewStatisticService 1000 0 10).run
        [SvcOp.add { fingerprint := "", views := ["1"], clicks := [], channel := "" },
         SvcOp.aggregate]).getRecordCount DefaultChannel : Int) ≤ max 1 0)
    ∧ ((1 : Int) ≤ 0 →
        (((NewStatisticService 1000 0 10).run
          [SvcOp.add { fingerprint := "", views := ["1"], clicks := [], channel := "" },
           SvcOp.aggregate]).getRecordCount DefaultChannel : Int) ≤ 0) :=
  C4_store_bound_amended 1000 0 10 (by decide)
    [SvcOp.add { fingerprint := "", views := ["1"], clicks := [], channel := "" },
     SvcOp.aggregate] DefaultChannel

/-- C6 counterexample: with maxChannels = 2 the cap counts the
pre-created default channel, so ingesting to channels a, b and c
creates only channel a: the directory ends with 2 channels, not the 3
channels (two new plus default) the claim expects. -/
theorem C6_two_new_channels_counterexample :
    ((NewStatisticService 2 (-1) 10).run
        [SvcOp.add { fingerprint := "f", views := ["1"], clicks := [], channel := "a" },
         SvcOp.add { fingerprint := "f", views := ["1"], clicks := [], channel := "b" },
         SvcOp.add { fingerprint := "f", views := ["1"], clicks := [], channel := "c" },
         SvcOp.aggregate]).getChannels = ["a", "default"]
    ∧ ((NewStatisticService 2 (-1) 10).run
        [SvcOp.add { fingerprint := "f", views := ["1"], clicks := [], channel := "a" },
         SvcOp.add { fingerprint := "f", views := ["1"], clicks := [], channel := "b" },
         SvcOp.add { fingerprint := "f", views := ["1"], clicks := [], channel := "c" },
         SvcOp.aggregate]).channels.length ≠ 3 := by
  refine ⟨by decide, by decide⟩

/-- C6 amended: with maxChannels = 2, after ingesting to a, b and c and
aggregating, exactly one newly created channel (the first processed)
plus the pre-existing default exist, because the cap counts the default
channel; channel c is absent with getStatistic c = none, and in general
a channel miss with a full directory leaves the service unchanged
(silent drop). -/
theorem C6_channel_cap_amended :
    (((NewStatisticService 2 (-1) 10).run
        [SvcOp.add { fingerprint := "f", views := ["1"], clicks := [], channel := "a" },
         SvcOp.add { fingerprint := "f", views := ["1"], clicks := [], channel := "b" },
         SvcOp.add { fingerprint := "f", views := ["1"], clicks := [], channel := "c" },
         SvcOp.aggregate]).getChannels = ["a", "default"]
      ∧ ((NewStatisticService 2 (-1) 10).run
        [SvcOp.add { fingerprint := "f", views := ["1"], clicks := [], channel := "a" },
         SvcOp.add { fingerprint := "f", views := ["1"], clicks := [], channel := "b" },
         SvcOp.add { fingerprint := "f", views := ["1"], clicks := [], channel := "c" },
         SvcOp.aggregate]).getStatistic "c" = none)
    ∧ ∀ (ss : StatisticService) (inp : InputStats),
        (if inp.channel = "" then DefaultChannel else inp.channel) ∉ akeys ss.channels →
        (ss.channels.length : Int) ≥ ss.maxChannels →
        ss.aggregateOne inp = ss := by
  constructor
  · exact ⟨by decide, by decide⟩
  · intro ss inp hmem hfull
    unfold StatisticService.aggregateOne StatisticService.ensureChannel
    simp only [hmem, if_false, hfull, if_true]

/-- Witness for C6 amended: the silent-drop clause on a concrete full
directory. -/
theorem C6_channel_cap_amended_witness :
    (StatisticService.aggregateOne
        { buffer := [], channels := [(DefaultChannel, NewStatStore (-1) 10)]
          maxChannels := 1, maxRecords := -1, evictionPercent := 10 }
        { fingerprint := "f", views := ["1"], clicks := [], channel := "x" })
      = { buffer := [], channels := [(DefaultChannel, NewStatStore (-1) 10)]
          maxChannels := 1, maxRecords := -1, evictionPercent := 10 } :=
  C6_channel_cap_amended.2
    { buffer := [], channels := [(DefaultChannel, NewStatStore (-1) 10)]
      maxChannels := 1, maxRecords := -1, evictionPercent := 10 }
    { fingerprint := "f", views := ["1"], clicks := [], channel := "x" }
    (by decide) (by decide)

/-! FingerprintRecord (internal/models/fingerprint_record.go): sparse
per-user counters over two bitmaps plus an overflow map.  Bitmaps are
lists of distinct ids; roaring Add and Remove become list append-once
and filter.  The lastSeen timestamp is wall-clock plumbing and not part
of any claim here, so it is omitted from the state. -/

structure FingerprintRecord where
  viewed : List Nat
  clicked : List Nat
  counts : List (Nat × StatRecord)
deriving DecidableEq, Repr

/-- NewFingerprintRecord: empty bitmaps, empty counts. -/
def NewFingerprintRecord : FingerprintRecord :=
  { viewed := [], clicked := [], counts := [] }

/-- Bitmap Add: insert the id if it is not yet present. -/
def bmAdd (l : List Nat) (id : Nat) : List Nat :=
  if id ∈ l then l else l ++ [id]

/-- FingerprintRecord.evictRecords: keyed on the viewed cardinality;
score is counts[id].Views when present, else 1; remove the first target
ids from both bitmaps and from counts. -/
def FingerprintRecord.evictRecords (fr : FingerprintRecord)
    (maxRecords evictionPercent : Int) : FingerprintRecord :=
  if maxRecords < 0 ∨ (fr.viewed.length : Int) < maxRecords then fr
  else
    let target := evictTarget maxRecords evictionPercent
    let entries := fr.viewed.map (fun id =>
      (id, match alookup fr.counts id with
           | some rec => rec.views
           | none => 1))
    let sorted := List.insertionSort scoreLe entries
    let victims := (sorted.take target.toNat).map Prod.fst
    { viewed := fr.viewed.filter (fun i => decide (i ∉ victims))
      clicked := fr.clicked.filter (fun i => decide (i ∉ victims))
      counts := fr.counts.filter (fun p => decide (p.1 ∉ victims)) }

/-- The body of the incViews loop for one parsed id. -/
def FingerprintRecord.incViewId (fr : FingerprintRecord) (id : Nat)
    (maxRecordsPerFP evictionPercent : Int) : FingerprintRecord :=
  if id ∈ fr.viewed then
    match alookup fr.counts id with
    | some rec =>
      { fr with counts := (ainsert fr.counts id
        (if rec.views + 1 > 512 then
          ⟨(rec.views + 1 + 1) / 2, (rec.clicks + 1) / 2, rec.ftr + 1⟩
        else ⟨rec.views + 1, rec.clicks, rec.ftr⟩)) }
    | none =>
      { fr with counts := (ainsert fr.counts id
        ⟨2, if id ∈ fr.clicked then 1 else 0, 0⟩) }
  else
    let fr1 := fr.evictRecords maxRecordsPerFP evictionPercent
    let fr2 := { fr1 with viewed := bmAdd fr1.viewed id }
    match alookup fr2.counts id with
    | some rec =>
      { fr2 with counts := (ainsert fr2.counts id ⟨1, rec.clicks, rec.ftr⟩) }
    | none => fr2

/-- The body of the incClicks loop for one parsed id. -/
def FingerprintRecord.incClickId (fr : FingerprintRecord) (id : Nat) :
    FingerprintRecord :=
  if id ∈ fr.clicked then
    match alookup fr.counts id with
    | some rec =>
      { fr with counts := (ainsert fr.counts id
        ⟨rec.views, rec.clicks + 1, rec.ftr⟩) }
    | none =>
      { fr with counts := (ainsert fr.counts id
        ⟨if id ∈ fr.viewed then 1 else 0, 2, 0⟩) }
  else
    let fr1 := { fr with clicked := bmAdd fr.clicked id }
    match alookup fr1.counts id with
    | some rec =>
      { fr1 with counts := (ainsert fr1.counts id ⟨rec.views, 1, rec.ftr⟩) }
    | none => fr1

/-- One raw view string: skip empty and unparseable ids. -/
def FingerprintRecord.incViewStr (fr : FingerprintRecord) (v : String)
    (maxRecordsPerFP evictionPercent : Int) : FingerprintRecord :=
  if v = "" then fr else
  match parseContentId v with
  | none => fr
  | some id => fr.incViewId id maxRecordsPerFP evictionPercent

/-- One raw click string. -/
def FingerprintRecord.incClickStr (fr : FingerprintRecord) (v : String) :
    FingerprintRecord :=
  if v = "" then fr else
  match parseContentId v with
  | none => fr
  | some id => fr.incClickId id

/-- FingerprintRecord.IncStats: incViews then incClicks. -/
def FingerprintRecord.IncStats (fr : FingerprintRecord) (data : InputStats)
    (maxRecordsPerFP evictionPercent : Int) : FingerprintRecord :=
  data.clicks.foldl FingerprintRecord.incClickStr
    (data.views.foldl
      (fun f v => f.incViewStr v maxRecordsPerFP evictionPercent) fr)

/-- Pass 2 step of GetData over one clicked id. -/
def FingerprintRecord.pass2Step (counts : List (Nat × StatRecord))
    (res : List (Nat × StatRecord)) (id : Nat) : List (Nat × StatRecord) :=
  match alookup res id with
  | some r =>
    match alookup counts id with
    | some _ => res
    | none => ainsert res id ⟨r.views, 1, r.ftr⟩
  | none =>
    match alookup counts id with
    | some rec => res ++ [(id, rec)]
    | none => res ++ [(id, ⟨0, 1, 0⟩)]

/-- FingerprintRecord.GetData: pass 1 over viewed, then pass 2 over
clicked. -/
def FingerprintRecord.GetData (fr : FingerprintRecord) :
    List (Nat × StatRecord) :=
  let pass1 := fr.viewed.map (fun id =>
    (id, match alookup fr.counts id with
         | some rec => rec
         | none => ⟨1, 0, 0⟩))
  fr.clicked.foldl (FingerprintRecord.pass2Step fr.counts) pass1

/-- dataToFingerprintRecord (internal/models/personal_stat_store.go):
re-encode a dense map into the sparse form.  Nil records and
out-of-range ids are skipped; bitmap bits follow views > 0 and
clicks > 0; a counts entry appears only when the record deviates from
the bitmap default. -/
def dataToFingerprintRecord (data : List (Int × Option StatRecord)) :
    FingerprintRecord :=
  data.foldl
    (fun rec p =>
      match p.2 with
      | none => rec
      | some sr =>
        if p.1 < 0 ∨ p.1 > 4294967295 then rec
        else
          let uid := p.1.toNat
          let rec1 := if sr.views > 0 then { rec with viewed := bmAdd rec.viewed uid } else rec
          let rec2 := if sr.clicks > 0 then { rec1 with clicked := bmAdd rec1.clicked uid } else rec1
          if sr.views > 1 ∨ sr.clicks > 1 ∨ sr.ftr > 0 then
            { rec2 with counts := ainsert rec2.counts uid sr }
          else rec2)
    NewFingerprintRecord

/-! The FingerprintRecord invariants of the spec. -/

/-- Well-formedness: bitmaps and counts keys are duplicate-free (Go
bitmaps and maps cannot hold duplicates). -/
def FRWellFormed (fr : FingerprintRecord) : Prop :=
  fr.viewed.Nodup ∧ fr.clicked.Nodup ∧ (akeys fr.counts).Nodup

/-- Sparsity: every counts entry deviates from the bitmap default. -/
def FRSparse (fr : FingerprintRecord) : Prop :=
  ∀ p ∈ fr.counts, p.2.views > 1 ∨ p.2.clicks > 1 ∨ p.2.ftr > 0

/-- Bitmap consistency: counts entries with views >= 1 are in viewed and
with clicks >= 1 are in clicked. -/
def FRConsistent (fr : FingerprintRecord) : Prop :=
  ∀ p ∈ fr.counts,
    (p.2.views ≥ 1 → p.1 ∈ fr.viewed) ∧ (p.2.clicks ≥ 1 → p.1 ∈ fr.clicked)

/-- Coverage: every counts key is in at least one bitmap (holds on
records built purely by incStats; used by the GetData contract). -/
def FRCovered (fr : FingerprintRecord) : Prop :=
  ∀ p ∈ fr.counts, p.1 ∈ fr.viewed ∨ p.1 ∈ fr.clicked

instance (fr : FingerprintRecord) : Decidable (FRWellFormed fr) := by
  unfold FRWellFormed; infer_instance

instance (fr : FingerprintRecord) : Decidable (FRSparse fr) := by
  unfold FRSparse; infer_instance

instance (fr : FingerprintRecord) : Decidable (FRConsistent fr) := by
  unfold FRConsistent; infer_instance

instance (fr : FingerprintRecord) : Decidable (FRCovered fr) := by
  unfold FRCovered; infer_instance

/-! Bitmap helper lemmas. -/

theorem mem_bmAdd (l : List Nat) (id x : Nat) :
    x ∈ bmAdd l id ↔ x ∈ l ∨ x = id := by
  unfold bmAdd
  split
  · rename_i hmem
    constructor
    · exact Or.inl
    · rintro (h | h)
      · exact h
      · exact h ▸ hmem
  · simp

theorem mem_bmAdd_self (l : List Nat) (id : Nat) : id ∈ bmAdd l id :=
  (mem_bmAdd l id id).mpr (Or.inr rfl)

theorem mem_bmAdd_of_mem {l : List Nat} {x : Nat} (id : Nat) (h : x ∈ l) :
    x ∈ bmAdd l id := (mem_bmAdd l id x).mpr (Or.inl h)

theorem bmAdd_nodup (l : List Nat) (id : Nat) (h : l.Nodup) :
    (bmAdd l id).Nodup := by
  unfold bmAdd
  split
  · exact h
  · rename_i hmem
    refine List.Nodup.append h (List.nodup_singleton id) ?_
    intro x hx hx2
    simp only [List.mem_singleton] at hx2
    exact hmem (hx2 ▸ hx)

/-- Bundle of the structural invariants preserved by every operation. -/
def FRInv (fr : FingerprintRecord) : Prop :=
  FRWellFormed fr ∧ FRSparse fr ∧ FRConsistent fr

instance (fr : FingerprintRecord) : Decidable (FRInv fr) := by
  unfold FRInv; infer_instance

/-- Removing one victim set from both bitmaps and counts preserves the
invariants. -/
theorem frFilter_inv (fr : FingerprintRecord) (victims : List Nat)
    (h : FRInv fr) :
    FRInv { viewed := fr.viewed.filter (fun i => decide (i ∉ victims))
            clicked := fr.clicked.filter (fun i => decide (i ∉ victims))
            counts := fr.counts.filter (fun p => decide (p.1 ∉ victims)) } := by
  obtain ⟨⟨hnv, hnc, hnk⟩, hS, hC⟩ := h
  refine ⟨⟨hnv.filter _, hnc.filter _, hnk.sublist (akeys_filter_sublist _ _)⟩, ?_, ?_⟩
  · intro p hp
    exact hS p (List.mem_filter.mp hp).1
  · intro p hp
    obtain ⟨hpm, hpv⟩ := List.mem_filter.mp hp
    have := hC p hpm
    constructor
    · intro hv1
      exact List.mem_filter.mpr ⟨this.1 hv1, hpv⟩
    · intro hc1
      exact List.mem_filter.mpr ⟨this.2 hc1, hpv⟩

theorem frFilter_covered (fr : FingerprintRecord) (victims : List Nat)
    (h : FRCovered fr) :
    FRCovered { viewed := fr.viewed.filter (fun i => decide (i ∉ victims))
                clicked := fr.clicked.filter (fun i => decide (i ∉ victims))
                counts := fr.counts.filter (fun p => decide (p.1 ∉ victims)) } := by
  intro p hp
  obtain ⟨hpm, hpv⟩ := List.mem_filter.mp hp
  rcases h p hpm with hv | hc
  · exact Or.inl (List.mem_filter.mpr ⟨hv, hpv⟩)
  · exact Or.inr (List.mem_filter.mpr ⟨hc, hpv⟩)

theorem evictRecords_inv (fr : FingerprintRecord) (mR eP : Int)
    (h : FRInv fr) : FRInv (fr.evictRecords mR eP) := by
  unfold FingerprintRecord.evictRecords
  split
  · exact h
  · exact frFilter_inv fr _ h

theorem evictRecords_covered (fr : FingerprintRecord) (mR eP : Int)
    (h : FRCovered fr) : FRCovered (fr.evictRecords mR eP) := by
  unfold FingerprintRecord.evictRecords
  split
  · exact h
  · exact frFilter_covered fr _ h

theorem evictRecords_viewed_sub (fr : FingerprintRecord) (mR eP : Int) :
    ∀ x ∈ (fr.evictRecords mR eP).viewed, x ∈ fr.viewed := by
  unfold FingerprintRecord.evictRecords
  split
  · intro x hx; exact hx
  · intro x hx
    exact (List.mem_filter.mp hx).1

theorem evictRecords_clicked_sub (fr : FingerprintRecord) (mR eP : Int) :
    ∀ x ∈ (fr.evictRecords mR eP).clicked, x ∈ fr.clicked := by
  unfold FingerprintRecord.evictRecords
  split
  · intro x hx; exact hx
  · intro x hx
    exact (List.mem_filter.mp hx).1

/-! Branch equations for the per-id FingerprintRecord updates. -/

theorem incViewId_eq_present (fr : FingerprintRecord) (id : Nat)
    (mR eP : Int) (rec : StatRecord) (hv : id ∈ fr.viewed)
    (hl : alookup fr.counts id = some rec) :
    fr.incViewId id mR eP = { fr with counts := (ainsert fr.counts id
      (if rec.views + 1 > 512 then
        ⟨(rec.views + 1 + 1) / 2, (rec.clicks + 1) / 2, rec.ftr + 1⟩
      else ⟨rec.views + 1, rec.clicks, rec.ftr⟩)) } := by
  simp only [FingerprintRecord.incViewId, hv, if_true, hl]

theorem incViewId_eq_promo (fr : FingerprintRecord) (id : Nat)
    (mR eP : Int) (hv : id ∈ fr.viewed)
    (hl : alookup fr.counts id = none) :
    fr.incViewId id mR eP = { fr with counts := (ainsert fr.counts id
      ⟨2, if id ∈ fr.clicked then 1 else 0, 0⟩) } := by
  simp only [FingerprintRecord.incViewId, hv, if_true, hl]

theorem incViewId_eq_fresh_hit (fr : FingerprintRecord) (id : Nat)
    (mR eP : Int) (rec : StatRecord) (hv : id ∉ fr.viewed)
    (hl : alookup (fr.evictRecords mR eP).counts id = some rec) :
    fr.incViewId id mR eP =
      { viewed := bmAdd (fr.evictRecords mR eP).viewed id
        clicked := (fr.evictRecords mR eP).clicked
        counts := ainsert (fr.evictRecords mR eP).counts id
          ⟨1, rec.clicks, rec.ftr⟩ } := by
  simp only [FingerprintRecord.incViewId, hv, if_false, hl]

theorem incViewId_eq_fresh_miss (fr : FingerprintRecord) (id : Nat)
    (mR eP : Int) (hv : id ∉ fr.viewed)
    (hl : alookup (fr.evictRecords mR eP).counts id = none) :
    fr.incViewId id mR eP =
      { viewed := bmAdd (fr.evictRecords mR eP).viewed id
        clicked := (fr.evictRecords mR eP).clicked
        counts := (fr.evictRecords mR eP).counts } := by
  simp only [FingerprintRecord.incViewId, hv, if_false, hl]

theorem incClickId_eq_present (fr : FingerprintRecord) (id : Nat)
    (rec : StatRecord) (hc : id ∈ fr.clicked)
    (hl : alookup fr.counts id = some rec) :
    fr.incClickId id = { fr with counts := (ainsert fr.counts id
      ⟨rec.views, rec.clicks + 1, rec.ftr⟩) } := by
  simp only [FingerprintRecord.incClickId, hc, if_true, hl]

theorem incClickId_eq_promo (fr : FingerprintRecord) (id : Nat)
    (hc : id ∈ fr.clicked) (hl : alookup fr.counts id = none) :
    fr.incClickId id = { fr with counts := (ainsert fr.counts id
      ⟨if id ∈ fr.viewed then 1 else 0, 2, 0⟩) } := by
  simp only [FingerprintRecord.incClickId, hc, if_true, hl]

theorem incClickId_eq_fresh_hit (fr : FingerprintRecord) (id : Nat)
    (rec : StatRecord) (hc : id ∉ fr.clicked)
    (hl : alookup fr.counts id = some rec) :
    fr.incClickId id =
      { viewed := fr.viewed
        clicked := bmAdd fr.clicked id
        counts := ainsert fr.counts id ⟨rec.views, 1, rec.ftr⟩ } := by
  simp only [FingerprintRecord.incClickId, hc, if_false, hl]

theorem incClickId_eq_fresh_miss (fr : FingerprintRecord) (id : Nat)
    (hc : id ∉ fr.clicked) (hl : alookup fr.counts id = none) :
    fr.incClickId id =
      { viewed := fr.viewed
        clicked := bmAdd fr.clicked id
        counts := fr.counts } := by
  simp only [FingerprintRecord.incClickId, hc, if_false, hl]

/-! Invariant preservation for the per-id FingerprintRecord updates. -/

theorem incViewId_inv (fr : FingerprintRecord) (id : Nat) (mR eP : Int)
    (h : FRInv fr) : FRInv (fr.incViewId id mR eP) := by
  obtain ⟨⟨hnv, hnc, hnk⟩, hS, hC⟩ := h
  by_cases hv : id ∈ fr.viewed
  · cases hl : alookup fr.counts id with
    | some rec =>
      rw [incViewId_eq_present fr id mR eP rec hv hl]
      have hmem : id ∈ akeys fr.counts :=
        (alookup_isSome_iff_mem _ _).mp (by rw [hl]; rfl)
      have hold := hS _ (alookup_mem hl)
      dsimp only at hold
      refine ⟨⟨hnv, hnc, by rw [akeys_ainsert_of_mem _ _ _ hmem]; exact hnk⟩, ?_, ?_⟩
      · intro p hp
        rcases mem_ainsert hp with hp | hp
        · subst hp
          by_cases hgt : rec.views + 1 > 512
          · simp only [hgt, if_pos]
            left
            show (1 : Int) < (rec.views + 1 + 1) / 2
            omega
          · simp only [hgt, if_neg]
            rcases hold with h1 | h1 | h1
            · left; show (1 : Int) < rec.views + 1; omega
            · right; left; exact h1
            · right; right; exact h1
        · exact hS p hp
      · intro p hp
        rcases mem_ainsert hp with hp | hp
        · subst hp
          have hcl := (hC _ (alookup_mem hl)).2
          dsimp only at hcl
          by_cases hgt : rec.views + 1 > 512
          · simp only [hgt, if_pos]
            refine ⟨fun _ => hv, fun hge => hcl ?_⟩
            show (1 : Int) ≤ rec.clicks
            have : (1 : Int) ≤ (rec.clicks + 1) / 2 := hge
            omega
          · simp only [hgt, if_neg]
            exact ⟨fun _ => hv, fun hge => hcl hge⟩
        · exact hC p hp
    | none =>
      rw [incViewId_eq_promo fr id mR eP hv hl]
      have hmem : id ∉ akeys fr.counts :=
        (alookup_eq_none_iff_not_mem _ _).mp hl
      refine ⟨⟨hnv, hnc, ?_⟩, ?_, ?_⟩
      · rw [akeys_ainsert_of_absent _ _ _ hmem]
        refine List.Nodup.append hnk (List.nodup_singleton id) ?_
        intro x hx hx2
        simp only [List.mem_singleton] at hx2
        exact hmem (hx2 ▸ hx)
      · intro p hp
        rcases mem_ainsert hp with hp | hp
        · subst hp
          left
          show (1 : Int) < 2
          norm_num
        · exact hS p hp
      · intro p hp
        rcases mem_ainsert hp with hp | hp
        · subst hp
          refine ⟨fun _ => hv, fun hge => ?_⟩
          by_cases hck : id ∈ fr.clicked
          · exact hck
          · rw [if_neg hck] at hge
            exact absurd hge (by norm_num)
        · exact hC p hp
  · have hinv1 : FRInv (fr.evictRecords mR eP) :=
      evictRecords_inv fr mR eP ⟨⟨hnv, hnc, hnk⟩, hS, hC⟩
    obtain ⟨⟨hnv1, hnc1, hnk1⟩, hS1, hC1⟩ := hinv1
    have hv1 : id ∉ (fr.evictRecords mR eP).viewed := by
      intro hx
      exact hv (evictRecords_viewed_sub fr mR eP id hx)
    cases hl : alookup (fr.evictRecords mR eP).counts id with
    | some rec =>
      rw [incViewId_eq_fresh_hit fr id mR eP rec hv hl]
      have hmem : id ∈ akeys (fr.evictRecords mR eP).counts :=
        (alookup_isSome_iff_mem _ _).mp (by rw [hl]; rfl)
      have hold := hS1 _ (alookup_mem hl)
      dsimp only at hold
      have holdC := hC1 _ (alookup_mem hl)
      dsimp only at holdC
      have hviews0 : rec.views < 1 := by
        by_contra hge
        push_neg at hge
        exact hv1 (holdC.1 hge)
      refine ⟨⟨bmAdd_nodup _ _ hnv1, hnc1,
        by rw [akeys_ainsert_of_mem _ _ _ hmem]; exact hnk1⟩, ?_, ?_⟩
      · intro p hp
        rcases mem_ainsert hp with hp | hp
        · subst hp
          rcases hold with h1 | h1 | h1
          · exact absurd h1 (by omega)
          · right; left; exact h1
          · right; right; exact h1
        · exact hS1 p hp
      · intro p hp
        rcases mem_ainsert hp with hp | hp
        · subst hp
          exact ⟨fun _ => mem_bmAdd_self _ _, fun hge => holdC.2 hge⟩
        · refine ⟨fun hge => ?_, fun hge => (hC1 p hp).2 hge⟩
          exact mem_bmAdd_of_mem id ((hC1 p hp).1 hge)
    | none =>
      rw [incViewId_eq_fresh_miss fr id mR eP hv hl]
      refine ⟨⟨bmAdd_nodup _ _ hnv1, hnc1, hnk1⟩, ?_, ?_⟩
      · intro p hp
        exact hS1 p hp
      · intro p hp
        refine ⟨fun hge => mem_bmAdd_of_mem id ((hC1 p hp).1 hge),
          fun hge => (hC1 p hp).2 hge⟩

theorem incClickId_inv (fr : FingerprintRecord) (id : Nat)
    (h : FRInv fr) : FRInv (fr.incClickId id) := by
  obtain ⟨⟨hnv, hnc, hnk⟩, hS, hC⟩ := h
  by_cases hc : id ∈ fr.clicked
  · cases hl : alookup fr.counts id with
    | some rec =>
      rw [incClickId_eq_present fr id rec hc hl]
      have hmem : id ∈ akeys fr.counts :=
        (alookup_isSome_iff_mem _ _).mp (by rw [hl]; rfl)
      have hold := hS _ (alookup_mem hl)
      dsimp only at hold
      refine ⟨⟨hnv, hnc, by rw [akeys_ainsert_of_mem _ _ _ hmem]; exact hnk⟩, ?_, ?_⟩
      · intro p hp
        rcases mem_ainsert hp with hp | hp
        · subst hp
          rcases hold with h1 | h1 | h1
          · left; exact h1
          · right; left; show (1 : Int) < rec.clicks + 1; omega
          · right; right; exact h1
        · exact hS p hp
      · intro p hp
        rcases mem_ainsert hp with hp | hp
        · subst hp
          exact ⟨fun hge => (hC _ (alookup_mem hl)).1 hge, fun _ => hc⟩
        · exact hC p hp
    | none =>
      rw [incClickId_eq_promo fr id hc hl]
      have hmem : id ∉ akeys fr.counts :=
        (alookup_eq_none_iff_not_mem _ _).mp hl
      refine ⟨⟨hnv, hnc, ?_⟩, ?_, ?_⟩
      · rw [akeys_ainsert_of_absent _ _ _ hmem]
        refine List.Nodup.append hnk (List.nodup_singleton id) ?_
        intro x hx hx2
        simp only [List.mem_singleton] at hx2
        exact hmem (hx2 ▸ hx)
      · intro p hp
        rcases mem_ainsert hp with hp | hp
        · subst hp
          right; left
          show (1 : Int) < 2
          norm_num
        · exact hS p hp
      · intro p hp
        rcases mem_ainsert hp with hp | hp
        · subst hp
          refine ⟨fun hge => ?_, fun _ => hc⟩
          by_cases hvw : id ∈ fr.viewed
          · exact hvw
          · rw [if_neg hvw] at hge
            exact absurd hge (by norm_num)
        · exact hC p hp
  · cases hl : alookup fr.counts id with
    | some rec =>
      rw [incClickId_eq_fresh_hit fr id rec hc hl]
      have hmem : id ∈ akeys fr.counts :=
        (alookup_isSome_iff_mem _ _).mp (by rw [hl]; rfl)
      have hold := hS _ (alookup_mem hl)
      dsimp only at hold
      have holdC := hC _ (alookup_mem hl)
      dsimp only at holdC
      have hclicks0 : rec.clicks < 1 := by
        by_contra hge
        push_neg at hge
        exact hc (holdC.2 hge)
      refine ⟨⟨hnv, bmAdd_nodup _ _ hnc,
        by rw [akeys_ainsert_of_mem _ _ _ hmem]; exact hnk⟩, ?_, ?_⟩
      · intro p hp
        rcases mem_ainsert hp with hp | hp
        · subst hp
          rcases hold with h1 | h1 | h1
          · left; exact h1
          · exact absurd h1 (by omega)
          · right; right; exact h1
        · exact hS p hp
      · intro p hp
        rcases mem_ainsert hp with hp | hp
        · subst hp
          exact ⟨fun hge => holdC.1 hge, fun _ => mem_bmAdd_self _ _⟩
        · refine ⟨fun hge => (hC p hp).1 hge, fun hge => ?_⟩
          exact mem_bmAdd_of_mem id ((hC p hp).2 hge)
    | none =>
      rw [incClickId_eq_fresh_miss fr id hc hl]
      refine ⟨⟨hnv, bmAdd_nodup _ _ hnc, hnk⟩, ?_, ?_⟩
      · intro p hp
        exact hS p hp
      · intro p hp
        refine ⟨fun hge => (hC p hp).1 hge,
          fun hge => mem_bmAdd_of_mem id ((hC p hp).2 hge)⟩

theorem incViewId_covered (fr : FingerprintRecord) (id : Nat) (mR eP : Int)
    (h : FRCovered fr) : FRCovered (fr.incViewId id mR eP) := by
  by_cases hv : id ∈ fr.viewed
  · cases hl : alookup fr.counts id with
    | some rec =>
      rw [incViewId_eq_present fr id mR eP rec hv hl]
      intro p hp
      rcases mem_ainsert hp with hp | hp
      · subst hp; exact Or.inl hv
      · exact h p hp
    | none =>
      rw [incViewId_eq_promo fr id mR eP hv hl]
      intro p hp
      rcases mem_ainsert hp with hp | hp
      · subst hp; exact Or.inl hv
      · exact h p hp
  · have h1 : FRCovered (fr.evictRecords mR eP) := evictRecords_covered fr mR eP h
    cases hl : alookup (fr.evictRecords mR eP).counts id with
    | some rec =>
      rw [incViewId_eq_fresh_hit fr id mR eP rec hv hl]
      intro p hp
      rcases mem_ainsert hp with hp | hp
      · subst hp; exact Or.inl (mem_bmAdd_self _ _)
      · rcases h1 p hp with hx | hx
        · exact Or.inl (mem_bmAdd_of_mem id hx)
        · exact Or.inr hx
    | none =>
      rw [incViewId_eq_fresh_miss fr id mR eP hv hl]
      intro p hp
      rcases h1 p hp with hx | hx
      · exact Or.inl (mem_bmAdd_of_mem id hx)
      · exact Or.inr hx

theorem incClickId_covered (fr : FingerprintRecord) (id : Nat)
    (h : FRCovered fr) : FRCovered (fr.incClickId id) := by
  by_cases hc : id ∈ fr.clicked
  · cases hl : alookup fr.counts id with
    | some rec =>
      rw [incClickId_eq_present fr id rec hc hl]
      intro p hp
      rcases mem_ainsert hp with hp | hp
      · subst hp; exact Or.inr hc
      · exact h p hp
    | none =>
      rw [incClickId_eq_promo fr id hc hl]
      intro p hp
      rcases mem_ainsert hp with hp | hp
      · subst hp; exact Or.inr hc
      · exact h p hp
  · cases hl : alookup fr.counts id with
    | some rec =>
      rw [incClickId_eq_fresh_hit fr id rec hc hl]
      intro p hp
      rcases mem_ainsert hp with hp | hp
      · subst hp; exact Or.inr (mem_bmAdd_self _ _)
      · rcases h p hp with hx | hx
        · exact Or.inl hx
        · exact Or.inr (mem_bmAdd_of_mem id hx)
    | none =>
      rw [incClickId_eq_fresh_miss fr id hc hl]
      intro p hp
      rcases h p hp with hx | hx
      · exact Or.inl hx
      · exact Or.inr (mem_bmAdd_of_mem id hx)

theorem incViewStr_inv (fr : FingerprintRecord) (v : String) (mR eP : Int)
    (h : FRInv fr) : FRInv (fr.incViewStr v mR eP) := by
  unfold FingerprintRecord.incViewStr
  split
  · exact h
  · cases parseContentId v with
    | none => exact h
    | some id => exact incViewId_inv fr id mR eP h

theorem incClickStr_inv (fr : FingerprintRecord) (v : String)
    (h : FRInv fr) : FRInv (fr.incClickStr v) := by
  unfold FingerprintRecord.incClickStr
  split
  · exact h
  · cases parseContentId v with
    | none => exact h
    | some id => exact incClickId_inv fr id h

theorem incViewStr_covered (fr : FingerprintRecord) (v : String) (mR eP : Int)
    (h : FRCovered fr) : FRCovered (fr.incViewStr v mR eP) := by
  unfold FingerprintRecord.incViewStr
  split
  · exact h
  · cases parseContentId v with
    | none => exact h
    | some id => exact incViewId_covered fr id mR eP h

theorem incClickStr_covered (fr : FingerprintRecord) (v : String)
    (h : FRCovered fr) : FRCovered (fr.incClickStr v) := by
  unfold FingerprintRecord.incClickStr
  split
  · exact h
  · cases parseContentId v with
    | none => exact h
    | some id => exact incClickId_covered fr id h

theorem incStats_fr_inv (fr : FingerprintRecord) (data : InputStats)
    (mR eP : Int) (h : FRInv fr) : FRInv (fr.IncStats data mR eP) := by
  unfold FingerprintRecord.IncStats
  have hviews : ∀ (vs : List String) (t : FingerprintRecord), FRInv t →
      FRInv (vs.foldl (fun f v => f.incViewStr v mR eP) t) := by
    intro vs
    induction vs with
    | nil => intro t ht; exact ht
    | cons v rest ih => intro t ht; exact ih _ (incViewStr_inv t v mR eP ht)
  have hclicks : ∀ (vs : List String) (t : FingerprintRecord), FRInv t →
      FRInv (vs.foldl FingerprintRecord.incClickStr t) := by
    intro vs
    induction vs with
    | nil => intro t ht; exact ht
    | cons v rest ih => intro t ht; exact ih _ (incClickStr_inv t v ht)
  exact hclicks _ _ (hviews _ _ h)

theorem incStats_fr_covered (fr : FingerprintRecord) (data : InputStats)
    (mR eP : Int) (h : FRCovered fr) : FRCovered (fr.IncStats data mR eP) := by
  unfold FingerprintRecord.IncStats
  have hviews : ∀ (vs : List String) (t : FingerprintRecord), FRCovered t →
      FRCovered (vs.foldl (fun f v => f.incViewStr v mR eP) t) := by
    intro vs
    induction vs with
    | nil => intro t ht; exact ht
    | cons v rest ih => intro t ht; exact ih _ (incViewStr_covered t v mR eP ht)
  have hclicks : ∀ (vs : List String) (t : FingerprintRecord), FRCovered t →
      FRCovered (vs.foldl FingerprintRecord.incClickStr t) := by
    intro vs
    induction vs with
    | nil => intro t ht; exact ht
    | cons v rest ih => intro t ht; exact ih _ (incClickStr_covered t v ht)
  exact hclicks _ _ (hviews _ _ h)

/-- Reachability of a record from a fresh one by incStats calls alone. -/
def FRReachable (fr : FingerprintRecord) : Prop :=
  ∃ steps : List (InputStats × Int × Int),
    fr = steps.foldl (fun f s => f.IncStats s.1 s.2.1 s.2.2) NewFingerprintRecord

theorem fr_fresh_inv : FRInv NewFingerprintRecord ∧ FRCovered NewFingerprintRecord := by
  refine ⟨⟨⟨List.nodup_nil, List.nodup_nil, List.nodup_nil⟩, ?_, ?_⟩, ?_⟩ <;>
    intro p hp <;> simp [NewFingerprintRecord] at hp

theorem reachable_inv {fr : FingerprintRecord} (h : FRReachable fr) :
    FRInv fr ∧ FRCovered fr := by
  obtain ⟨steps, hsteps⟩ := h
  subst hsteps
  have hall : ∀ (t : FingerprintRecord), FRInv t → FRCovered t →
      FRInv (steps.foldl (fun f s => f.IncStats s.1 s.2.1 s.2.2) t)
        ∧ FRCovered (steps.foldl (fun f s => f.IncStats s.1 s.2.1 s.2.2) t) := by
    induction steps with
    | nil => intro t h1 h2; exact ⟨h1, h2⟩
    | cons s rest ih =>
      intro t h1 h2
      exact ih _ (incStats_fr_inv t s.1 s.2.1 s.2.2 h1)
        (incStats_fr_covered t s.1 s.2.1 s.2.2 h2)
  exact hall NewFingerprintRecord fr_fresh_inv.1 fr_fresh_inv.2

/-! Rehydration establishes the invariants outright. -/

theorem frAddViewBit_inv (rec : FingerprintRecord) (uid : Nat)
    (h : FRInv rec) : FRInv { rec with viewed := bmAdd rec.viewed uid } := by
  obtain ⟨⟨hnv, hnc, hnk⟩, hS, hC⟩ := h
  refine ⟨⟨bmAdd_nodup _ _ hnv, hnc, hnk⟩, ?_, ?_⟩
  · intro p hp
    exact hS p hp
  · intro p hp
    exact ⟨fun hge => mem_bmAdd_of_mem uid ((hC p hp).1 hge),
      fun hge => (hC p hp).2 hge⟩

theorem frAddClickBit_inv (rec : FingerprintRecord) (uid : Nat)
    (h : FRInv rec) : FRInv { rec with clicked := bmAdd rec.clicked uid } := by
  obtain ⟨⟨hnv, hnc, hnk⟩, hS, hC⟩ := h
  refine ⟨⟨hnv, bmAdd_nodup _ _ hnc, hnk⟩, ?_, ?_⟩
  · intro p hp
    exact hS p hp
  · intro p hp
    exact ⟨fun hge => (hC p hp).1 hge,
      fun hge => mem_bmAdd_of_mem uid ((hC p hp).2 hge)⟩

theorem frAddCount_inv (rec : FingerprintRecord) (uid : Nat) (sr : StatRecord)
    (h : FRInv rec) (hdev : sr.views > 1 ∨ sr.clicks > 1 ∨ sr.ftr > 0)
    (hviews : sr.views ≥ 1 → uid ∈ rec.viewed)
    (hclicks : sr.clicks ≥ 1 → uid ∈ rec.clicked) :
    FRInv { rec with counts := ainsert rec.counts uid sr } := by
  obtain ⟨⟨hnv, hnc, hnk⟩, hS, hC⟩ := h
  refine ⟨⟨hnv, hnc, ?_⟩, ?_, ?_⟩
  · by_cases hmem : uid ∈ akeys rec.counts
    · rw [akeys_ainsert_of_mem _ _ _ hmem]; exact hnk
    · rw [akeys_ainsert_of_absent _ _ _ hmem]
      refine List.Nodup.append hnk (List.nodup_singleton uid) ?_
      intro x hx hx2
      simp only [List.mem_singleton] at hx2
      exact hmem (hx2 ▸ hx)
  · intro p hp
    rcases mem_ainsert hp with hp | hp
    · subst hp; exact hdev
    · exact hS p hp
  · intro p hp
    rcases mem_ainsert hp with hp | hp
    · subst hp; exact ⟨hviews, hclicks⟩
    · exact hC p hp

theorem dataToFR_step_inv (rec : FingerprintRecord) (k : Int)
    (srO : Option StatRecord) (h : FRInv rec) :
    FRInv (match srO with
      | none => rec
      | some sr =>
        if k < 0 ∨ k > 4294967295 then rec
        else
          let uid := k.toNat
          let rec1 := if sr.views > 0 then { rec with viewed := bmAdd rec.viewed uid } else rec
          let rec2 := if sr.clicks > 0 then { rec1 with clicked := bmAdd rec1.clicked uid } else rec1
          if sr.views > 1 ∨ sr.clicks > 1 ∨ sr.ftr > 0 then
            { rec2 with counts := ainsert rec2.counts uid sr }
          else rec2) := by
  cases srO with
  | none => exact h
  | some sr =>
    dsimp only
    by_cases hrange : k < 0 ∨ k > 4294967295
    · rw [if_pos hrange]
      exact h
    · rw [if_neg hrange]
      by_cases hvb : sr.views > 0 <;> by_cases hcb : sr.clicks > 0 <;>
        by_cases hdev : sr.views > 1 ∨ sr.clicks > 1 ∨ sr.ftr > 0 <;>
        simp only [hvb, hcb, hdev, if_pos, if_neg, if_true, if_false]
      · refine frAddCount_inv _ _ _
          (frAddClickBit_inv _ _ (frAddViewBit_inv _ _ h)) hdev ?_ ?_
        · intro _
          exact mem_bmAdd_self _ _
        · intro _
          exact mem_bmAdd_self _ _
      · exact frAddClickBit_inv _ _ (frAddViewBit_inv _ _ h)
      · refine frAddCount_inv _ _ _ (frAddViewBit_inv _ _ h) hdev ?_ ?_
        · intro _
          exact mem_bmAdd_self _ _
        · intro hge
          exact absurd hge (by omega)
      · exact frAddViewBit_inv _ _ h
      · refine frAddCount_inv _ _ _ (frAddClickBit_inv _ _ h) hdev ?_ ?_
        · intro hge
          exact absurd hge (by omega)
        · intro _
          exact mem_bmAdd_self _ _
      · exact frAddClickBit_inv _ _ h
      · refine frAddCount_inv _ _ _ h hdev ?_ ?_
        · intro hge
          exact absurd hge (by omega)
        · intro hge
          exact absurd hge (by omega)
      · exact h

theorem dataToFingerprintRecord_inv (data : List (Int × Option StatRecord)) :
    FRInv (dataToFingerprintRecord data) := by
  unfold dataToFingerprintRecord
  have hall : ∀ (t : FingerprintRecord), FRInv t →
      FRInv (data.foldl
        (fun rec p =>
          match p.2 with
          | none => rec
          | some sr =>
            if p.1 < 0 ∨ p.1 > 4294967295 then rec
            else
              let uid := p.1.toNat
              let rec1 := if sr.views > 0 then { rec with viewed := bmAdd rec.viewed uid } else rec
              let rec2 := if sr.clicks > 0 then { rec1 with clicked := bmAdd rec1.clicked uid } else rec1
              if sr.views > 1 ∨ sr.clicks > 1 ∨ sr.ftr > 0 then
                { rec2 with counts := ainsert rec2.counts uid sr }
              else rec2)
        t) := by
    induction data with
    | nil => intro t ht; exact ht
    | cons p rest ih =>
      intro t ht
      exact ih _ (dataToFR_step_inv t p.1 p.2 ht)
  exact hall NewFingerprintRecord fr_fresh_inv.1

/-! The GetData contract. -/

/-- The logical view of one id (the spec contract): counts wins when
present, otherwise the bitmap defaults, and an id in neither bitmap
yields no entry. -/
def logicalView (fr : FingerprintRecord) (id : Nat) : Option StatRecord :=
  match alookup fr.counts id with
  | some rec => some rec
  | none =>
    if id ∈ fr.viewed ∨ id ∈ fr.clicked then
      some ⟨if id ∈ fr.viewed then 1 else 0, if id ∈ fr.clicked then 1 else 0, 0⟩
    else none

theorem alookup_map_self {α β : Type} [DecidableEq α] (l : List α)
    (f : α → β) (x : α) :
    alookup (l.map (fun a => (a, f a))) x
      = if x ∈ l then some (f x) else none := by
  induction l with
  | nil => simp [alookup]
  | cons a rest ih =>
    by_cases ha : a = x
    · subst ha
      simp [alookup]
    · simp [alookup, ha, Ne.symm ha, ih]

/-- The value pass 2 leaves at one id, as a function of the pass 1 value
and the counts value. -/
def pass2Spec (resv cntv : Option StatRecord) : Option StatRecord :=
  match resv, cntv with
  | some r, some _ => some r
  | some r, none => some ⟨r.views, 1, r.ftr⟩
  | none, some rec => some rec
  | none, none => some ⟨0, 1, 0⟩

theorem pass2Step_lookup_ne (counts res : List (Nat × StatRecord))
    (id x : Nat) (hx : x ≠ id) :
    alookup (FingerprintRecord.pass2Step counts res id) x = alookup res x := by
  unfold FingerprintRecord.pass2Step
  cases hres : alookup res id with
  | some r =>
    cases alookup counts id with
    | some _ => rfl
    | none => exact alookup_ainsert_ne res id x _ hx
  | none =>
    cases alookup counts id with
    | some rec =>
      rw [alookup_append]
      cases hrx : alookup res x
      · simp [alookup, Ne.symm hx]
      · simp
    | none =>
      rw [alookup_append]
      cases hrx : alookup res x
      · simp [alookup, Ne.symm hx]
      · simp

theorem pass2Step_lookup_self (counts res : List (Nat × StatRecord)) (id : Nat) :
    alookup (FingerprintRecord.pass2Step counts res id) id
      = pass2Spec (alookup res id) (alookup counts id) := by
  unfold FingerprintRecord.pass2Step pass2Spec
  cases hres : alookup res id with
  | some r =>
    cases alookup counts id with
    | some _ => exact hres
    | none => exact alookup_ainsert_self res id _
  | none =>
    cases alookup counts id with
    | some rec =>
      rw [alookup_append, hres]
      simp [alookup]
    | none =>
      rw [alookup_append, hres]
      simp [alookup]

theorem pass2_fold_lookup (counts : List (Nat × StatRecord))
    (cl : List Nat) (hnd : cl.Nodup) :
    ∀ (res : List (Nat × StatRecord)) (x : Nat),
    alookup (cl.foldl (FingerprintRecord.pass2Step counts) res) x
      = if x ∈ cl then pass2Spec (alookup res x) (alookup counts x)
        else alookup res x := by
  induction cl with
  | nil =>
    intro res x
    simp
  | cons c rest ih =>
    intro res x
    obtain ⟨hc, hrest⟩ := List.nodup_cons.mp hnd
    simp only [List.foldl_cons]
    by_cases hx : x = c
    · subst hx
      have hx2 : x ∉ rest := hc
      rw [ih hrest _ x, if_neg hx2, pass2Step_lookup_self, if_pos (by simp)]
    · rw [ih hrest _ x, pass2Step_lookup_ne counts res c x hx]
      by_cases hxr : x ∈ rest
      · rw [if_pos hxr, if_pos (by simp [hxr])]
      · rw [if_neg hxr, if_neg (by simp [hxr, hx])]

/-- The GetData reconstruction satisfies the logical-view contract on
every well-formed covered record. -/
theorem getData_contract (fr : FingerprintRecord)
    (hwf : FRWellFormed fr) (hcov : FRCovered fr) (id : Nat) :
    alookup fr.GetData id = logicalView fr id := by
  unfold FingerprintRecord.GetData
  rw [pass2_fold_lookup fr.counts fr.clicked hwf.2.1 _ id,
    alookup_map_self fr.viewed _ id]
  unfold logicalView pass2Spec
  by_cases hc : id ∈ fr.clicked <;> by_cases hv : id ∈ fr.viewed <;>
    cases hcl : alookup fr.counts id
  · simp [hc, hv, hcl]
  · simp [hc, hv, hcl]
  · simp [hc, hv, hcl]
  · simp [hc, hv, hcl]
  · simp [hc, hv, hcl]
  · simp [hc, hv, hcl]
  · simp [hc, hv, hcl]
  · rename_i rec
    have hcase : id ∈ fr.viewed ∨ id ∈ fr.clicked := hcov _ (alookup_mem hcl)
    rcases hcase with h | h
    · exact absurd h hv
    · exact absurd h hc

/-! Claim theorems C1 and C9. -/

/-- C1: on every FingerprintRecord reachable from a fresh record by
incStats calls, GetData agrees at every content id with the logical
view: the counts entry when present, else views 1 iff viewed, clicks 1
iff clicked, ftr 0, and no entry for an id in neither bitmap. -/
theorem C1_getData_logical_view (fr : FingerprintRecord)
    (h : FRReachable fr) :
    ∀ id : Nat, alookup fr.GetData id = logicalView fr id := by
  obtain ⟨hinv, hcov⟩ := reachable_inv h
  intro id
  exact getData_contract fr hinv.1 hcov id

/-- Witness for C1: a record built by one incStats call (view 1, clicks
2 then 7). -/
theorem C1_getData_logical_view_witness :
    alookup (FingerprintRecord.GetData ⟨[1], [2, 7], []⟩) 2
      = logicalView ⟨[1], [2, 7], []⟩ 2 :=
  C1_getData_logical_view ⟨[1], [2, 7], []⟩
    ⟨[({ fingerprint := "f", views := ["1"], clicks := ["2", "7"], channel := "" },
      (-1 : Int), (10 : Int))], by decide⟩ 2

/-- C9: every FingerprintRecord operation preserves the sparsity and
bitmap-consistency invariants on well-formed records: incStats over
views and clicks, per-fingerprint eviction, and rehydration from a
dense map (which establishes the invariants outright). -/
theorem C9_invariant_preservation :
    (∀ (fr : FingerprintRecord) (data : InputStats) (mR eP : Int),
        FRWellFormed fr ∧ FRSparse fr ∧ FRConsistent fr →
        FRSparse (fr.IncStats data mR eP) ∧ FRConsistent (fr.IncStats data mR eP))
    ∧ (∀ (fr : FingerprintRecord) (mR eP : Int),
        FRWellFormed fr ∧ FRSparse fr ∧ FRConsistent fr →
        FRSparse (fr.evictRecords mR eP) ∧ FRConsistent (fr.evictRecords mR eP))
    ∧ (∀ data : List (Int × Option StatRecord),
        FRSparse (dataToFingerprintRecord data)
          ∧ FRConsistent (dataToFingerprintRecord data)) := by
  refine ⟨?_, ?_, ?_⟩
  · intro fr data mR eP h
    have := incStats_fr_inv fr data mR eP h
    exact ⟨this.2.1, this.2.2⟩
  · intro fr mR eP h
    have := evictRecords_inv fr mR eP h
    exact ⟨this.2.1, this.2.2⟩
  · intro data
    have := dataToFingerprintRecord_inv data
    exact ⟨this.2.1, this.2.2⟩

/-- Witness for C9: an incStats call on a concrete well-formed record
satisfying the invariants. -/
theorem C9_invariant_preservation_witness :
    FRSparse (FingerprintRecord.IncStats ⟨[1], [], [(1, ⟨2, 0, 0⟩)]⟩
        { fingerprint := "f", views := ["1"], clicks := ["3"], channel := "" } (-1) 10)
      ∧ FRConsistent (FingerprintRecord.IncStats ⟨[1], [], [(1, ⟨2, 0, 0⟩)]⟩
        { fingerprint := "f", views := ["1"], clicks := ["3"], channel := "" } (-1) 10) :=
  C9_invariant_preservation.1 ⟨[1], [], [(1, ⟨2, 0, 0⟩)]⟩
    { fingerprint := "f", views := ["1"], clicks := ["3"], channel := "" } (-1) 10
    (by refine ⟨by decide, ?_, ?_⟩ <;> decide)

/-! PersonalStatStore (internal/models/personal_stat_store.go).  Cold
storage reaches the store through the ColdStorageInterface; it is
represented by its two observable operations on the fixed channel. -/

/-- The ColdStorageInterface as seen by one PersonalStatStore: Has and
Restore on this store's channel.  restoreFn returns none when Restore
errors or yields nil data. -/
structure ColdIface where
  hasFn : String → Bool
  restoreFn : String → Option (List (Int × Option StatRecord))

structure PersonalStatStore where
  channel : String
  fingerprints : List (String × FingerprintRecord)
  maxFingerprints : Int
  maxRecordsPerFP : Int
  evictionPercent : Int
  fingerprintTTL : Int
  cold : Option ColdIface

/-- NewPersonalStatStore: maxFingerprints of exactly 0 becomes 100000,
evictionPercent <= 0 becomes 10. -/
def NewPersonalStatStore (channel : String)
    (maxFingerprints maxRecordsPerFP evictionPercent fingerprintTTL : Int)
    (cold : Option ColdIface) : PersonalStatStore :=
  { channel := channel
    fingerprints := []
    maxFingerprints := if maxFingerprints = 0 then 100000 else maxFingerprints
    maxRecordsPerFP := maxRecordsPerFP
    evictionPercent := if evictionPercent ≤ 0 then 10 else evictionPercent
    fingerprintTTL := fingerprintTTL
    cold := cold }

/-- tryRestoreFromCold: nil cold or a Has miss yields nothing; a Restore
error or nil data yields nothing; otherwise the dense map is re-encoded. -/
def PersonalStatStore.tryRestoreFromCold (ps : PersonalStatStore)
    (fp : String) : Option FingerprintRecord :=
  match ps.cold with
  | none => none
  | some c =>
    if c.hasFn fp then
      match c.restoreFn fp with
      | none => none
      | some data => some (dataToFingerprintRecord data)
    else none

/-- PersonalStatStore.IncStats: resident fast path, cold restore, then
the capacity check; only a brand-new unrestorable fingerprint at
capacity is dropped.  The record mutation after the directory unlock is
folded into the stored record. -/
def PersonalStatStore.IncStats (ps : PersonalStatStore) (val : InputStats) :
    PersonalStatStore :=
  match alookup ps.fingerprints val.fingerprint with
  | some rec =>
    { ps with fingerprints := (ainsert ps.fingerprints val.fingerprint
        (rec.IncStats val ps.maxRecordsPerFP ps.evictionPercent)) }
  | none =>
    match ps.tryRestoreFromCold val.fingerprint with
    | some rec =>
      { ps with fingerprints := (ainsert ps.fingerprints val.fingerprint
          (rec.IncStats val ps.maxRecordsPerFP ps.evictionPercent)) }
    | none =>
      if 0 ≤ ps.maxFingerprints ∧ ps.maxFingerprints ≤ (ps.fingerprints.length : Int) then
        ps
      else
        { ps with fingerprints := (ainsert ps.fingerprints val.fingerprint
            (NewFingerprintRecord.IncStats val ps.maxRecordsPerFP ps.evictionPercent)) }

/-- C10: NewPersonalStatStore silently normalises maxFingerprints = 0 to
100000 and non-positive evictionPercent to 10; an incStats input is
dropped only when its fingerprint is neither resident nor restorable
from cold storage and the directory is at capacity; consequently with
maxFingerprints = 0 configured a brand-new fingerprint is kept until the
directory holds 100000 fingerprints. -/
theorem C10_capacity_normalisation :
    (∀ (ch : String) (mRFP eP ttl : Int) (cold : Option ColdIface),
        (NewPersonalStatStore ch 0 mRFP eP ttl cold).maxFingerprints = 100000)
    ∧ (∀ (ch : String) (mF mRFP eP ttl : Int) (cold : Option ColdIface), eP ≤ 0 →
        (NewPersonalStatStore ch mF mRFP eP ttl cold).evictionPercent = 10)
    ∧ (∀ (ps : PersonalStatStore) (val : InputStats),
        alookup (ps.IncStats val).fingerprints val.fingerprint = none →
        alookup ps.fingerprints val.fingerprint = none
          ∧ ps.tryRestoreFromCold val.fingerprint = none
          ∧ 0 ≤ ps.maxFingerprints
          ∧ ps.maxFingerprints ≤ (ps.fingerprints.length : Int))
    ∧ (∀ (ps : PersonalStatStore) (val : InputStats),
        ps.maxFingerprints = 100000 → (ps.fingerprints.length : Int) < 100000 →
        (alookup (ps.IncStats val).fingerprints val.fingerprint).isSome) := by
  refine ⟨?_, ?_, ?_, ?_⟩
  · intro ch mRFP eP ttl cold
    simp [NewPersonalStatStore]
  · intro ch mF mRFP eP ttl cold heP
    simp [NewPersonalStatStore, heP]
  · intro ps val hdrop
    cases hl : alookup ps.fingerprints val.fingerprint with
    | some rec =>
      rw [show ps.IncStats val = { ps with fingerprints := (ainsert ps.fingerprints val.fingerprint
          (rec.IncStats val ps.maxRecordsPerFP ps.evictionPercent)) } from by
        simp only [PersonalStatStore.IncStats, hl]] at hdrop
      rw [alookup_ainsert_self] at hdrop
      cases hdrop
    | none =>
      cases hr : ps.tryRestoreFromCold val.fingerprint with
      | some rec =>
        rw [show ps.IncStats val = { ps with fingerprints := (ainsert ps.fingerprints val.fingerprint
            (rec.IncStats val ps.maxRecordsPerFP ps.evictionPercent)) } from by
          simp only [PersonalStatStore.IncStats, hl, hr]] at hdrop
        rw [alookup_ainsert_self] at hdrop
        cases hdrop
      | none =>
        by_cases hcap : 0 ≤ ps.maxFingerprints ∧ ps.maxFingerprints ≤ (ps.fingerprints.length : Int)
        · exact ⟨rfl, rfl, hcap.1, hcap.2⟩
        · rw [show ps.IncStats val = { ps with fingerprints := (ainsert ps.fingerprints val.fingerprint
              (NewFingerprintRecord.IncStats val ps.maxRecordsPerFP ps.evictionPercent)) } from by
            simp only [PersonalStatStore.IncStats, hl, hr, hcap, if_false]] at hdrop
          rw [alookup_ainsert_self] at hdrop
          cases hdrop
  · intro ps val hmax hlen
    cases hl : alookup ps.fingerprints val.fingerprint with
    | some rec =>
      rw [show ps.IncStats val = { ps with fingerprints := (ainsert ps.fingerprints val.fingerprint
          (rec.IncStats val ps.maxRecordsPerFP ps.evictionPercent)) } from by
        simp only [PersonalStatStore.IncStats, hl]]
      rw [alookup_ainsert_self]
      rfl
    | none =>
      cases hr : ps.tryRestoreFromCold val.fingerprint with
      | some rec =>
        rw [show ps.IncStats val = { ps with fingerprints := (ainsert ps.fingerprints val.fingerprint
            (rec.IncStats val ps.maxRecordsPerFP ps.evictionPercent)) } from by
          simp only [PersonalStatStore.IncStats, hl, hr]]
        rw [alookup_ainsert_self]
        rfl
      | none =>
        have hcap : ¬ (0 ≤ ps.maxFingerprints ∧ ps.maxFingerprints ≤ (ps.fingerprints.length : Int)) := by
          rw [hmax]
          push_neg
          intro _
          omega
        rw [show ps.IncStats val = { ps with fingerprints := (ainsert ps.fingerprints val.fingerprint
            (NewFingerprintRecord.IncStats val ps.maxRecordsPerFP ps.evictionPercent)) } from by
          simp only [PersonalStatStore.IncStats, hl, hr, hcap, if_false]]
        rw [alookup_ainsert_self]
        rfl

/-- Witness for C10: a one-slot directory at capacity drops a new
fingerprint, and the drop certifies non-residency, non-restorability and
the capacity condition. -/
theorem C10_capacity_normalisation_witness :
    alookup [("g", NewFingerprintRecord)] "h" = none
      ∧ PersonalStatStore.tryRestoreFromCold
          { channel := "c", fingerprints := [("g", NewFingerprintRecord)]
            maxFingerprints := 1, maxRecordsPerFP := -1, evictionPercent := 10
            fingerprintTTL := 0, cold := none } "h" = none
      ∧ (0 : Int) ≤ 1
      ∧ (1 : Int) ≤ (([("g", NewFingerprintRecord)] :
          List (String × FingerprintRecord)).length : Int) :=
  C10_capacity_normalisation.2.2.1
    { channel := "c", fingerprints := [("g", NewFingerprintRecord)]
      maxFingerprints := 1, maxRecordsPerFP := -1, evictionPercent := 10
      fingerprintTTL := 0, cold := none }
    { fingerprint := "h", views := ["1"], clicks := [], channel := "" }
    (by decide)

/-! ColdStorage (statistic package): write-behind disk tier for evicted
fingerprints.  The directory of cold files is modelled as an explicit
map channel -> parsed ColdFile shared between instances; compression
and JSON framing are bijective plumbing on that content.  Wall-clock
reads become explicit timestamps, and write failure is a parameter of
flush (writeOk), standing for the I/O outcome of writeColdFile. -/

/-- The dense per-fingerprint payload stored cold (map[int]*StatRecord). -/
abbrev ColdData := List (Int × Option StatRecord)

structure ColdEntry where
  data : ColdData
  evictedAt : Int
deriving DecidableEq, Repr

/-- One channel's cold file: entries by fingerprint. -/
abbrev ColdFile := List (String × ColdEntry)

structure ColdState where
  disk : List (String × ColdFile)
  index : List (String × List String)
  pending : List (String × ColdFile)
  restored : List (String × List String)
  loaded : List (String × ColdFile)
  coldTTL : Int

/-- NewColdStorage over a directory with the given current contents. -/
def NewColdStorage (disk : List (String × ColdFile)) (coldTTL : Int) : ColdState :=
  { disk := disk, index := [], pending := [], restored := [], loaded := []
    coldTTL := coldTTL }

/-- Set-style insert for string sets. -/
def sAdd (l : List String) (x : String) : List String :=
  if x ∈ l then l else l ++ [x]

/-- Has: index lookup only. -/
def ColdState.hasFp (cs : ColdState) (ch fp : String) : Bool :=
  match alookup cs.index ch with
  | some fps => decide (fp ∈ fps)
  | none => false

/-- Evict: buffer the entry into pending and insert into the index.  No
disk access. -/
def ColdState.evict (cs : ColdState) (ch fp : String) (data : ColdData)
    (now : Int) : ColdState :=
  { cs with
    pending := ainsert cs.pending ch
      (ainsert ((alookup cs.pending ch).getD []) fp ⟨data, now⟩)
    index := ainsert cs.index ch (sAdd ((alookup cs.index ch).getD []) fp) }

/-- Delete a fingerprint from a channel's index set (no-op when the
channel has no index entry, as Go map delete on a nil map). -/
def idxRemove (index : List (String × List String)) (ch fp : String) :
    List (String × List String) :=
  match alookup index ch with
  | none => index
  | some l => ainsert index ch (l.filter (fun x => decide (x ≠ fp)))

/-- The loaded cache after getOrLoadColdFile on one channel. -/
def ColdState.loadedAfter (cs : ColdState) (ch : String) :
    List (String × ColdFile) :=
  match alookup cs.loaded ch with
  | some _ => cs.loaded
  | none =>
    match alookup cs.disk ch with
    | some cf => ainsert cs.loaded ch cf
    | none => cs.loaded

/-- Whether getOrLoadColdFile finds a file (cached or on disk). -/
def ColdState.wasCached (cs : ColdState) (ch : String) : Bool :=
  ((alookup cs.loaded ch).or (alookup cs.disk ch)).isSome

/-- The disk-consulting tail of Restore: lazy load through the cache and
lazy delete through the restored set. -/
def ColdState.restoreFromFile (cs : ColdState) (ch fp : String) :
    Option ColdData × ColdState :=
  match (alookup cs.loaded ch).or (alookup cs.disk ch) with
  | none =>
    (none, { cs with loaded := cs.loadedAfter ch
                     index := idxRemove cs.index ch fp })
  | some cf =>
    match alookup cf fp with
    | none =>
      (none, { cs with loaded := cs.loadedAfter ch
                       index := idxRemove cs.index ch fp })
    | some entry =>
      (some entry.data,
       { cs with
         loaded := cs.loadedAfter ch
         restored := ainsert cs.restored ch
           (sAdd ((alookup cs.restored ch).getD []) fp)
         index := idxRemove cs.index ch fp })

/-- Restore: pending hit first (remove from pending and index); else
consult the cold file through the cache, mark the fingerprint for lazy
delete.  Returns the data found, if any, with the updated state. -/
def ColdState.restore (cs : ColdState) (ch fp : String) :
    Option ColdData × ColdState :=
  match alookup cs.pending ch with
  | some entries =>
    match alookup entries fp with
    | some entry =>
      (some entry.data,
       { cs with
         pending :=
           (if (aerase entries fp).isEmpty then aerase cs.pending ch
            else ainsert cs.pending ch (aerase entries fp))
         index := idxRemove cs.index ch fp })
    | none => cs.restoreFromFile ch fp
  | none => cs.restoreFromFile ch fp

/-- Whether a cold entry is past the TTL at the given instant. -/
def staleEntry (ttl now : Int) (e : ColdEntry) : Bool :=
  decide (now - e.evictedAt > ttl)

/-- Steps 1-3 of Flush for one channel: base file via the cache, lazy
deletes, merge of pending. -/
def ColdState.flushMerged (cs : ColdState) (ch : String) : ColdFile :=
  let cf0 := ((alookup cs.loaded ch).or (alookup cs.disk ch)).getD []
  let rfps := (alookup cs.restored ch).getD []
  let cf1 := cf0.filter (fun p => decide (p.1 ∉ rfps))
  let pend := (alookup cs.pending ch).getD []
  pend.foldl (fun acc q => ainsert acc q.1 q.2) cf1

/-- Step 4 of Flush: the entries surviving the cold TTL. -/
def ColdState.flushFile (cs : ColdState) (ch : String) (now : Int) : ColdFile :=
  if cs.coldTTL > 0 then
    (cs.flushMerged ch).filter (fun p => ! staleEntry cs.coldTTL now p.2)
  else cs.flushMerged ch

/-- Step 4 of Flush: the fingerprints garbage-collected by the TTL. -/
def ColdState.flushExpired (cs : ColdState) (ch : String) (now : Int) :
    List String :=
  if cs.coldTTL > 0 then
    ((cs.flushMerged ch).filter (fun p => staleEntry cs.coldTTL now p.2)).map Prod.fst
  else []

/-- Remove a set of expired fingerprints from a channel's index set. -/
def idxPurge (index : List (String × List String)) (ch : String)
    (expired : List String) : List (String × List String) :=
  match alookup index ch with
  | none => index
  | some l => ainsert index ch (l.filter (fun x => decide (x ∉ expired)))

/-- Flush of one channel.  The boolean result is false exactly when the
disk write failed; in that case pending and restored keep their
entries and only the cache mutation and TTL index purge are visible,
mirroring the in-place mutation of the cached ColdFile object. -/
def ColdState.flushOne (cs : ColdState) (ch : String) (now : Int)
    (wOk : Bool) : ColdState × Bool :=
  let cf3 := cs.flushFile ch now
  let index1 := idxPurge cs.index ch (cs.flushExpired ch now)
  let loaded2 :=
    if cs.wasCached ch then ainsert (cs.loadedAfter ch) ch cf3
    else cs.loadedAfter ch
  if cf3.isEmpty then
    ({ cs with disk := aerase cs.disk ch, loaded := aerase loaded2 ch
               pending := aerase cs.pending ch
               restored := aerase cs.restored ch, index := index1 }, true)
  else if wOk then
    ({ cs with disk := ainsert cs.disk ch cf3, loaded := ainsert loaded2 ch cf3
               pending := aerase cs.pending ch
               restored := aerase cs.restored ch, index := index1 }, true)
  else
    ({ cs with loaded := loaded2, index := index1 }, false)

/-- The channel set a Flush call visits: keys of pending and restored. -/
def ColdState.flushChannels (cs : ColdState) : List String :=
  (akeys cs.pending ++ akeys cs.restored).dedup

/-- The per-channel loop of Flush with its early return on a failed
write: the error names the failing channel. -/
def flushAux (cs : ColdState) (chans : List String) (now : Int)
    (wOk : String → Bool) : ColdState × Option String :=
  match chans with
  | [] => (cs, none)
  | c :: rest =>
    match cs.flushOne c now (wOk c) with
    | (cs1, true) => flushAux cs1 rest now wOk
    | (cs1, false) => (cs1, some c)

/-- Flush: visit every channel with pending or restored entries. -/
def ColdState.flush (cs : ColdState) (now : Int) (wOk : String → Bool) :
    ColdState × Option String :=
  flushAux cs cs.flushChannels now wOk

/-- RestoreIndex: build the index from the cold files on disk, caching
nothing. -/
def ColdState.restoreIndex (cs : ColdState) : ColdState :=
  { cs with index := cs.disk.map (fun p => (p.1, akeys p.2)) }

/-! Association-list support lemmas for the cold-storage proofs. -/

theorem alookup_aerase_self {α β : Type} [DecidableEq α]
    (l : List (α × β)) (k : α) : alookup (aerase l k) k = none := by
  rw [alookup_eq_none_iff_not_mem]
  intro hmem
  obtain ⟨p, hp, hpk⟩ := List.mem_map.mp hmem
  obtain ⟨hpl, hpd⟩ := List.mem_filter.mp hp
  simp only [decide_eq_true_iff] at hpd
  exact hpd (by rw [hpk])

theorem alookup_aerase_ne {α β : Type} [DecidableEq α]
    (l : List (α × β)) (k k2 : α) (h : k2 ≠ k) :
    alookup (aerase l k) k2 = alookup l k2 := by
  induction l with
  | nil => rfl
  | cons p rest ih =>
    obtain ⟨ka, va⟩ := p
    rw [aerase, List.filter_cons]
    split
    · rw [alookup_cons]
      by_cases hka2 : ka = k2
      · rw [if_pos hka2, alookup_cons, if_pos hka2]
      · rw [if_neg hka2,
          show List.filter (fun p => decide (p.1 ≠ k)) rest = aerase rest k from rfl,
          ih, alookup_cons, if_neg hka2]
    · rename_i hcond
      have hka : ka = k := by simpa using hcond
      subst hka
      rw [show List.filter (fun p => decide (p.1 ≠ ka)) rest = aerase rest ka from rfl,
        ih, alookup_cons, if_neg (fun he => h he.symm)]

theorem alookup_map_value {α β γ : Type} [DecidableEq α]
    (l : List (α × β)) (g : β → γ) (k : α) :
    alookup (l.map (fun p => (p.1, g p.2))) k = (alookup l k).map g := by
  induction l with
  | nil => rfl
  | cons p rest ih =>
    obtain ⟨ka, va⟩ := p
    by_cases hka : ka = k <;> simp [alookup, hka, ih]

theorem alookup_filter_of_pos {α β : Type} [DecidableEq α]
    {l : List (α × β)} {q : α × β → Bool} {x : α} {v : β}
    (h : alookup l x = some v) (hq : q (x, v) = true) :
    alookup (l.filter q) x = some v := by
  induction l with
  | nil => simp [alookup] at h
  | cons p rest ih =>
    obtain ⟨ka, va⟩ := p
    by_cases hka : ka = x
    · subst hka
      simp only [alookup_cons, if_pos rfl] at h
      cases h
      rw [List.filter_cons, if_pos (by simpa using hq)]
      simp [alookup]
    · simp only [alookup_cons, hka, if_false] at h
      rw [List.filter_cons]
      split
      · simp [alookup, hka, ih h]
      · exact ih h

theorem isEmpty_false_of_alookup {α β : Type} [DecidableEq α]
    {l : List (α × β)} {k : α} {v : β} (h : alookup l k = some v) :
    l.isEmpty = false := by
  cases l with
  | nil => simp [alookup] at h
  | cons p rest => rfl

theorem mem_akeys_of_alookup {α β : Type} [DecidableEq α]
    {l : List (α × β)} {k : α} {v : β} (h : alookup l k = some v) :
    k ∈ akeys l := by
  rw [← alookup_isSome_iff_mem, h]
  rfl

theorem filter_notin_nil {β : Type} (l : List (String × β)) :
    l.filter (fun p => decide (p.1 ∉ ([] : List String))) = l :=
  List.filter_eq_self.mpr (by intro a _; simp)

/-- On a state with no pending and no cache, restore goes to the disk
file and returns the stored entry's data. -/
theorem restore_fresh (dk : List (String × ColdFile))
    (idx : List (String × List String)) (ttl : Int) (ch fp : String)
    (cf : ColdFile) (e : ColdEntry)
    (hdk : alookup dk ch = some cf) (hfp : alookup cf fp = some e) :
    (ColdState.restore
        { disk := dk, index := idx, pending := [], restored := [],
          loaded := [], coldTTL := ttl } ch fp).1 = some e.data := by
  unfold ColdState.restore ColdState.restoreFromFile
  simp only [alookup_nil, Option.or, hdk, hfp]

/-- C8: evict, then a successful flush, then restoreIndex on a fresh
ColdStorage over the same directory: the fingerprint is indexed and
restore returns the evicted data, provided coldTTL has not elapsed for
the entry at flush time. -/
theorem C8_cold_roundtrip (disk0 : List (String × ColdFile)) (ttl : Int)
    (ch fp : String) (d : ColdData) (evictT flushT : Int)
    (httl : ttl ≤ 0 ∨ flushT - evictT ≤ ttl) :
    (((NewColdStorage disk0 ttl).evict ch fp d evictT).flush flushT
        (fun _ => true)).2 = none
    ∧ ((NewColdStorage ((((NewColdStorage disk0 ttl).evict ch fp d evictT).flush
          flushT (fun _ => true)).1).disk ttl).restoreIndex).hasFp ch fp = true
    ∧ (((NewColdStorage ((((NewColdStorage disk0 ttl).evict ch fp d evictT).flush
          flushT (fun _ => true)).1).disk ttl).restoreIndex).restore ch fp).1
        = some d := by
  have hcs1 : (NewColdStorage disk0 ttl).evict ch fp d evictT =
      { disk := disk0, index := [(ch, [fp])]
        pending := [(ch, [(fp, ⟨d, evictT⟩)])]
        restored := [], loaded := [], coldTTL := ttl } := by
    simp [NewColdStorage, ColdState.evict, alookup, ainsert, sAdd]
  rw [hcs1]
  set cs1 : ColdState :=
    { disk := disk0, index := [(ch, [fp])]
      pending := [(ch, [(fp, ⟨d, evictT⟩)])]
      restored := [], loaded := [], coldTTL := ttl } with hcs1def
  have hmerged : cs1.flushMerged ch
      = ainsert ((alookup disk0 ch).getD []) fp ⟨d, evictT⟩ := by
    unfold ColdState.flushMerged
    simp only [hcs1def, alookup_nil, Option.or, alookup_cons, if_pos rfl,
      eq_self_iff_true, if_true, Option.getD_none, Option.getD_some,
      filter_notin_nil, List.foldl_cons, List.foldl_nil]
  have hlook3 : alookup (cs1.flushFile ch flushT) fp = some ⟨d, evictT⟩ := by
    unfold ColdState.flushFile
    show alookup (if ttl > 0 then _ else cs1.flushMerged ch) fp = _
    by_cases ht : ttl > 0
    · rw [if_pos ht, hmerged]
      apply alookup_filter_of_pos (alookup_ainsert_self _ _ _)
      have hle : flushT - evictT ≤ ttl := by
        rcases httl with h | h
        · omega
        · exact h
      simp [staleEntry]
      omega
    · rw [if_neg ht, hmerged]
      exact alookup_ainsert_self _ _ _
  have hone : cs1.flushOne ch flushT true =
      ({ cs1 with
          disk := ainsert cs1.disk ch (cs1.flushFile ch flushT)
          loaded := ainsert (if cs1.wasCached ch
              then ainsert (cs1.loadedAfter ch) ch (cs1.flushFile ch flushT)
              else cs1.loadedAfter ch) ch (cs1.flushFile ch flushT)
          pending := aerase cs1.pending ch
          restored := aerase cs1.restored ch
          index := idxPurge cs1.index ch (cs1.flushExpired ch flushT) }, true) := by
    unfold ColdState.flushOne
    rw [if_neg (by rw [isEmpty_false_of_alookup hlook3]; exact Bool.false_ne_true)]
    rw [if_pos rfl]
  have hflush : cs1.flush flushT (fun _ => true) =
      ((cs1.flushOne ch flushT true).1, none) := by
    unfold ColdState.flush
    have hfc : cs1.flushChannels = [ch] := by
      simp [ColdState.flushChannels, hcs1def, akeys]
    rw [hfc]
    unfold flushAux
    rw [hone]
    rfl
  rw [hflush]
  refine ⟨rfl, ?_, ?_⟩
  · have hdisk : ((cs1.flushOne ch flushT true).1).disk
        = ainsert disk0 ch (cs1.flushFile ch flushT) := by
      rw [hone]
    unfold ColdState.hasFp ColdState.restoreIndex
    rw [hdisk]
    show (match alookup ((ainsert disk0 ch (cs1.flushFile ch flushT)).map
        (fun p => (p.1, akeys p.2))) ch with
      | some fps => decide (fp ∈ fps)
      | none => false) = true
    rw [alookup_map_value, alookup_ainsert_self]
    simp [mem_akeys_of_alookup hlook3]
  · have hdisk : ((cs1.flushOne ch flushT true).1).disk
        = ainsert disk0 ch (cs1.flushFile ch flushT) := by
      rw [hone]
    rw [hdisk]
    have hfresh :
        (NewColdStorage (ainsert disk0 ch (cs1.flushFile ch flushT)) ttl).restoreIndex
          = { disk := ainsert disk0 ch (cs1.flushFile ch flushT)
              index := (ainsert disk0 ch (cs1.flushFile ch flushT)).map
                (fun p => (p.1, akeys p.2))
              pending := [], restored := [], loaded := [], coldTTL := ttl } := rfl
    rw [hfresh]
    exact restore_fresh _ _ ttl ch fp (cs1.flushFile ch flushT) ⟨d, evictT⟩
      (alookup_ainsert_self _ _ _) hlook3

/-- Witness for C8: the round trip at a concrete instance. -/
theorem C8_cold_roundtrip_witness :
    (((NewColdStorage [] 10).evict "a" "f" [((1 : Int), some ⟨3, 1, 0⟩)] 5).flush 7
        (fun _ => true)).2 = none
    ∧ ((NewColdStorage ((((NewColdStorage [] 10).evict "a" "f"
          [((1 : Int), some ⟨3, 1, 0⟩)] 5).flush 7 (fun _ => true)).1).disk
          10).restoreIndex).hasFp "a" "f" = true
    ∧ (((NewColdStorage ((((NewColdStorage [] 10).evict "a" "f"
          [((1 : Int), some ⟨3, 1, 0⟩)] 5).flush 7 (fun _ => true)).1).disk
          10).restoreIndex).restore "a" "f").1 = some [((1 : Int), some ⟨3, 1, 0⟩)] :=
  C8_cold_roundtrip [] 10 "a" "f" [((1 : Int), some ⟨3, 1, 0⟩)] 5 7 (by decide)

/-! Machinery for the failed-flush analysis: key distinctness of the
per-channel files, lookup formulas for the merge and the two filters of
Flush, and preservation of a channel's view across the other channels'
flushes. -/

/-- The keys of an association list are pairwise distinct (true of
every Go map image). -/
def keysNodup {α β : Type} (l : List (α × β)) : Prop := (akeys l).Nodup

instance {α β : Type} [DecidableEq α] (l : List (α × β)) :
    Decidable (keysNodup l) :=
  List.nodupDecidable (akeys l)

/-- Well-formedness of a ColdState: every buffered, cached or on-disk
cold file has pairwise-distinct fingerprints, as any file marshalled
from a Go map does. -/
def ColdWF (cs : ColdState) : Prop :=
  (∀ p ∈ cs.pending, keysNodup p.2)
  ∧ (∀ p ∈ cs.loaded, keysNodup p.2)
  ∧ (∀ p ∈ cs.disk, keysNodup p.2)

instance (cs : ColdState) : Decidable (ColdWF cs) :=
  inferInstanceAs (Decidable ((∀ p ∈ cs.pending, keysNodup p.2)
    ∧ (∀ p ∈ cs.loaded, keysNodup p.2) ∧ (∀ p ∈ cs.disk, keysNodup p.2)))

theorem keysNodup_of_wf_lookup {l : List (String × ColdFile)}
    (hwf : ∀ p ∈ l, keysNodup p.2) (ch : String) :
    keysNodup ((alookup l ch).getD []) := by
  cases h : alookup l ch with
  | none => exact List.nodup_nil
  | some cf => simpa using hwf (ch, cf) (alookup_mem h)

theorem keysNodup_ainsert {α β : Type} [DecidableEq α]
    {l : List (α × β)} (k : α) (v : β) (h : keysNodup l) :
    keysNodup (ainsert l k v) := by
  by_cases hk : k ∈ akeys l
  · unfold keysNodup
    rw [akeys_ainsert_of_mem l k v hk]
    exact h
  · unfold keysNodup
    rw [akeys_ainsert_of_absent l k v hk]
    refine List.Nodup.append h (List.nodup_singleton k) ?_
    intro x hx hx2
    simp only [List.mem_singleton] at hx2
    exact hk (hx2 ▸ hx)

theorem keysNodup_filter {α β : Type} {l : List (α × β)}
    (q : α × β → Bool) (h : keysNodup l) : keysNodup (l.filter q) :=
  List.Nodup.sublist (akeys_filter_sublist l q) h

theorem keysNodup_foldl_ainsert {α β : Type} [DecidableEq α]
    (pend : List (α × β)) :
    ∀ acc : List (α × β), keysNodup acc →
      keysNodup (pend.foldl (fun acc q => ainsert acc q.1 q.2) acc) := by
  induction pend with
  | nil => intro acc h; exact h
  | cons q rest ih =>
    intro acc h
    rw [List.foldl_cons]
    exact ih _ (keysNodup_ainsert q.1 q.2 h)

/-- Lookup through the pending merge of Flush: a pending binding wins
over the base file (the pending file has distinct keys). -/
theorem alookup_foldl_ainsert {α β : Type} [DecidableEq α]
    (pend : List (α × β)) (fp : α) :
    ∀ acc : List (α × β), keysNodup pend →
      alookup (pend.foldl (fun acc q => ainsert acc q.1 q.2) acc) fp
        = (alookup pend fp).or (alookup acc fp) := by
  induction pend with
  | nil => intro acc _; simp [alookup]
  | cons q rest ih =>
    intro acc hnd
    obtain ⟨k1, v1⟩ := q
    have hnd2 : (k1 :: akeys rest).Nodup := hnd
    rw [List.nodup_cons] at hnd2
    obtain ⟨hk1, hnd1⟩ := hnd2
    rw [List.foldl_cons, ih _ hnd1, alookup_cons]
    by_cases hfp : k1 = fp
    · subst hfp
      rw [if_pos rfl, alookup_ainsert_self,
        (alookup_eq_none_iff_not_mem rest k1).mpr hk1]
      simp [Option.or]
    · rw [if_neg hfp, alookup_ainsert_ne acc k1 fp v1 (fun he => hfp he.symm)]

/-- Lookup through the restored-set filter of Flush (a key-only
predicate, so no distinctness is needed). -/
theorem alookup_filter_notin {β : Type} (l : List (String × β))
    (rfps : List String) (fp : String) :
    alookup (l.filter (fun p => decide (p.1 ∉ rfps))) fp
      = if fp ∈ rfps then none else alookup l fp := by
  induction l with
  | nil => by_cases hm : fp ∈ rfps <;> simp [alookup, hm]
  | cons p rest ih =>
    obtain ⟨ka, va⟩ := p
    rw [List.filter_cons]
    by_cases hka2 : ka ∈ rfps
    · rw [if_neg (by simp [hka2])]
      by_cases hka : ka = fp
      · subst hka
        rw [ih, if_pos hka2, if_pos hka2]
      · rw [ih]
        by_cases hm : fp ∈ rfps
        · rw [if_pos hm, if_pos hm]
        · rw [if_neg hm, if_neg hm, alookup_cons, if_neg hka]
    · rw [if_pos (by simp [hka2])]
      by_cases hka : ka = fp
      · subst hka
        rw [alookup_cons, if_pos rfl, if_neg hka2, alookup_cons, if_pos rfl]
      · rw [alookup_cons, if_neg hka, ih]
        by_cases hm : fp ∈ rfps
        · rw [if_pos hm, if_pos hm]
        · rw [if_neg hm, if_neg hm, alookup_cons, if_neg hka]

/-- Lookup through the TTL filter of Flush on a file with distinct
keys. -/
theorem alookup_filter_fresh (l : List (String × ColdEntry))
    (ttl now : Int) (fp : String) (h : keysNodup l) :
    alookup (l.filter (fun p => ! staleEntry ttl now p.2)) fp
      = (alookup l fp).bind
          (fun e => if staleEntry ttl now e then none else some e) := by
  induction l with
  | nil => rfl
  | cons p rest ih =>
    obtain ⟨ka, va⟩ := p
    have hnd2 : (ka :: akeys rest).Nodup := h
    rw [List.nodup_cons] at hnd2
    obtain ⟨hka0, hnd1⟩ := hnd2
    rw [List.filter_cons]
    by_cases hs : staleEntry ttl now va = true
    · rw [if_neg (by simp [hs])]
      by_cases hka : ka = fp
      · subst hka
        rw [ih hnd1, (alookup_eq_none_iff_not_mem rest ka).mpr hka0,
          alookup_cons, if_pos rfl]
        simp [hs]
      · rw [ih hnd1, alookup_cons, if_neg hka]
    · rw [if_pos (by simp [hs])]
      by_cases hka : ka = fp
      · subst hka
        rw [alookup_cons, if_pos rfl, alookup_cons, if_pos rfl]
        simp [hs]
      · rw [alookup_cons, if_neg hka, ih hnd1, alookup_cons, if_neg hka]

/-- What one lookup into a flushed cold file returns, as a function of
the channel's view: pending binding, base-file binding, membership in
the restored set, and the TTL. -/
def fileLookupModel (P C : Option ColdEntry) (rm : Prop) [Decidable rm]
    (ttl now : Int) : Option ColdEntry :=
  if ttl > 0 then
    (P.or (if rm then none else C)).bind
      (fun e => if staleEntry ttl now e then none else some e)
  else P.or (if rm then none else C)

theorem flushMerged_alookup (cs : ColdState) (ch fp : String)
    (hp : keysNodup ((alookup cs.pending ch).getD [])) :
    alookup (cs.flushMerged ch) fp
      = (alookup ((alookup cs.pending ch).getD []) fp).or
          (if fp ∈ (alookup cs.restored ch).getD [] then none
           else alookup
             (((alookup cs.loaded ch).or (alookup cs.disk ch)).getD []) fp) := by
  unfold ColdState.flushMerged
  rw [alookup_foldl_ainsert _ fp _ hp, alookup_filter_notin]

theorem keysNodup_flushFile (cs : ColdState) (ch : String) (now : Int)
    (h0 : keysNodup (((alookup cs.loaded ch).or (alookup cs.disk ch)).getD [])) :
    keysNodup (cs.flushFile ch now) := by
  have hm : keysNodup (cs.flushMerged ch) := by
    unfold ColdState.flushMerged
    exact keysNodup_foldl_ainsert _ _ (keysNodup_filter _ h0)
  unfold ColdState.flushFile
  by_cases ht : cs.coldTTL > 0
  · rw [if_pos ht]
    exact keysNodup_filter _ hm
  · rw [if_neg ht]
    exact hm

theorem flushFile_alookup (cs : ColdState) (ch fp : String) (now : Int)
    (hp : keysNodup ((alookup cs.pending ch).getD []))
    (h0 : keysNodup (((alookup cs.loaded ch).or (alookup cs.disk ch)).getD [])) :
    alookup (cs.flushFile ch now) fp
      = fileLookupModel
          (alookup ((alookup cs.pending ch).getD []) fp)
          (alookup (((alookup cs.loaded ch).or (alookup cs.disk ch)).getD []) fp)
          (fp ∈ (alookup cs.restored ch).getD []) cs.coldTTL now := by
  have hmnd : keysNodup (cs.flushMerged ch) := by
    unfold ColdState.flushMerged
    exact keysNodup_foldl_ainsert _ _ (keysNodup_filter _ h0)
  unfold ColdState.flushFile fileLookupModel
  by_cases ht : cs.coldTTL > 0
  · rw [if_pos ht, if_pos ht, alookup_filter_fresh _ _ _ _ hmnd,
      flushMerged_alookup cs ch fp hp]
  · rw [if_neg ht, if_neg ht, flushMerged_alookup cs ch fp hp]

/-- Flushing a file whose lookups already satisfy the flush model is
stable: re-merging the written file with the same pending and restored
sets and re-filtering yields the same lookups.  This is why a retried
flush commits the same state. -/
theorem fileLookupModel_stable (P C : Option ColdEntry) (rm : Prop)
    [Decidable rm] (ttl now : Int) :
    fileLookupModel P (fileLookupModel P C rm ttl now) rm ttl now
      = fileLookupModel P C rm ttl now := by
  unfold fileLookupModel
  by_cases ht : ttl > 0
  · simp only [if_pos ht]
    by_cases hrm : rm
    · simp [hrm]
    · simp only [if_neg hrm]
      cases P with
      | some v => simp [Option.or]
      | none =>
        cases C with
        | none => rfl
        | some e =>
          by_cases hs : staleEntry ttl now e = true
          · simp [Option.or, hs]
          · simp [Option.or, hs]
  · simp only [if_neg ht]
    by_cases hrm : rm
    · simp [hrm]
    · simp only [if_neg hrm]
      cases P with
      | some v => simp [Option.or]
      | none => simp [Option.or]

/-- The cache load for one channel does not change any other channel's
cache line. -/
theorem loadedAfter_alookup_ne (cs : ColdState) (c c2 : String)
    (h : c2 ≠ c) :
    alookup (cs.loadedAfter c) c2 = alookup cs.loaded c2 := by
  unfold ColdState.loadedAfter
  cases hl : alookup cs.loaded c with
  | some cf => rfl
  | none =>
    cases hd : alookup cs.disk c with
    | some cf => exact alookup_ainsert_ne _ _ _ _ h
    | none => rfl

/-- The per-branch shapes of flushOne. -/
theorem flushOne_eq_empty (cs : ColdState) (c : String) (now : Int)
    (w : Bool) (hE : (cs.flushFile c now).isEmpty = true) :
    cs.flushOne c now w =
      ({ cs with
          disk := aerase cs.disk c
          loaded := aerase (if cs.wasCached c
              then ainsert (cs.loadedAfter c) c (cs.flushFile c now)
              else cs.loadedAfter c) c
          pending := aerase cs.pending c
          restored := aerase cs.restored c
          index := idxPurge cs.index c (cs.flushExpired c now) }, true) := by
  unfold ColdState.flushOne
  rw [if_pos hE]

theorem flushOne_eq_write (cs : ColdState) (c : String) (now : Int)
    (hE : (cs.flushFile c now).isEmpty = false) :
    cs.flushOne c now true =
      ({ cs with
          disk := ainsert cs.disk c (cs.flushFile c now)
          loaded := ainsert (if cs.wasCached c
              then ainsert (cs.loadedAfter c) c (cs.flushFile c now)
              else cs.loadedAfter c) c (cs.flushFile c now)
          pending := aerase cs.pending c
          restored := aerase cs.restored c
          index := idxPurge cs.index c (cs.flushExpired c now) }, true) := by
  unfold ColdState.flushOne
  rw [if_neg (by rw [hE]; exact Bool.false_ne_true), if_pos rfl]

theorem flushOne_eq_fail (cs : ColdState) (c : String) (now : Int)
    (hE : (cs.flushFile c now).isEmpty = false) :
    cs.flushOne c now false =
      ({ cs with
          loaded := (if cs.wasCached c
              then ainsert (cs.loadedAfter c) c (cs.flushFile c now)
              else cs.loadedAfter c)
          index := idxPurge cs.index c (cs.flushExpired c now) }, false) := by
  unfold ColdState.flushOne
  rw [if_neg (by rw [hE]; exact Bool.false_ne_true), if_neg Bool.false_ne_true]

/-- Inversion of a failed flushOne: only a nonempty target file with a
failing write fails, and then only the cache and index moved. -/
theorem flushOne_false_elim (cs cs1 : ColdState) (c : String) (now : Int)
    (w : Bool) (h : cs.flushOne c now w = (cs1, false)) :
    (cs.flushFile c now).isEmpty = false ∧ w = false
    ∧ cs1 = { cs with
        loaded := (if cs.wasCached c
            then ainsert (cs.loadedAfter c) c (cs.flushFile c now)
            else cs.loadedAfter c)
        index := idxPurge cs.index c (cs.flushExpired c now) } := by
  by_cases hE : (cs.flushFile c now).isEmpty = true
  · rw [flushOne_eq_empty cs c now w hE] at h
    exact absurd (congrArg Prod.snd h) (by simp)
  · have hE2 : (cs.flushFile c now).isEmpty = false := by
      revert hE
      cases (cs.flushFile c now).isEmpty <;> simp
    cases hw : w
    · rw [hw] at h
      rw [flushOne_eq_fail cs c now hE2] at h
      exact ⟨hE2, rfl, (congrArg Prod.fst h).symm⟩
    · rw [hw] at h
      rw [flushOne_eq_write cs c now hE2] at h
      exact absurd (congrArg Prod.snd h) (by simp)

/-- flushOne of one channel does not change another channel's pending
binding, restored set, cache-or-disk file, or the TTL. -/
theorem flushOne_alookup_ne (cs : ColdState) (c c2 : String) (now : Int)
    (w : Bool) (h : c2 ≠ c) :
    alookup ((cs.flushOne c now w).1).pending c2 = alookup cs.pending c2
    ∧ alookup ((cs.flushOne c now w).1).restored c2 = alookup cs.restored c2
    ∧ (alookup ((cs.flushOne c now w).1).loaded c2).or
        (alookup ((cs.flushOne c now w).1).disk c2)
      = (alookup cs.loaded c2).or (alookup cs.disk c2)
    ∧ ((cs.flushOne c now w).1).coldTTL = cs.coldTTL := by
  have hl2 : alookup (if cs.wasCached c
      then ainsert (cs.loadedAfter c) c (cs.flushFile c now)
      else cs.loadedAfter c) c2 = alookup cs.loaded c2 := by
    by_cases hw : cs.wasCached c = true
    · rw [if_pos hw, alookup_ainsert_ne _ _ _ _ h,
        loadedAfter_alookup_ne cs c c2 h]
    · rw [if_neg hw, loadedAfter_alookup_ne cs c c2 h]
  by_cases hE : (cs.flushFile c now).isEmpty = true
  · rw [flushOne_eq_empty cs c now w hE]
    dsimp only
    exact ⟨alookup_aerase_ne _ _ _ h, alookup_aerase_ne _ _ _ h,
      by rw [alookup_aerase_ne _ _ _ h, hl2, alookup_aerase_ne _ _ _ h], rfl⟩
  · have hE2 : (cs.flushFile c now).isEmpty = false := by
      revert hE
      cases (cs.flushFile c now).isEmpty <;> simp
    cases w
    · rw [flushOne_eq_fail cs c now hE2]
      dsimp only
      exact ⟨rfl, rfl, by rw [hl2], rfl⟩
    · rw [flushOne_eq_write cs c now hE2]
      dsimp only
      exact ⟨alookup_aerase_ne _ _ _ h, alookup_aerase_ne _ _ _ h,
        by rw [alookup_ainsert_ne _ _ _ _ h, hl2,
          alookup_ainsert_ne _ _ _ _ h], rfl⟩

theorem flushAux_cons_true (cs csA : ColdState) (now : Int)
    (wOk : String → Bool) (c0 : String) (rest : List String)
    (h : cs.flushOne c0 now (wOk c0) = (csA, true)) :
    flushAux cs (c0 :: rest) now wOk = flushAux csA rest now wOk := by
  rw [show flushAux cs (c0 :: rest) now wOk
      = (match cs.flushOne c0 now (wOk c0) with
         | (cs1, true) => flushAux cs1 rest now wOk
         | (cs1, false) => (cs1, some c0)) from rfl, h]

theorem flushAux_cons_false (cs csA : ColdState) (now : Int)
    (wOk : String → Bool) (c0 : String) (rest : List String)
    (h : cs.flushOne c0 now (wOk c0) = (csA, false)) :
    flushAux cs (c0 :: rest) now wOk = (csA, some c0) := by
  rw [show flushAux cs (c0 :: rest) now wOk
      = (match cs.flushOne c0 now (wOk c0) with
         | (cs1, true) => flushAux cs1 rest now wOk
         | (cs1, false) => (cs1, some c0)) from rfl, h]

/-- The early-return structure of the flush loop: a reported failure
identifies the failing channel, and the state it failed from agrees
with the initial state on that channel's whole view (the successful
channels before it are distinct from it). -/
theorem flushAux_fail (now : Int) (wOk : String → Bool) (c : String)
    (cs1 : ColdState) :
    ∀ (chans : List String) (cs : ColdState), chans.Nodup →
      flushAux cs chans now wOk = (cs1, some c) →
      c ∈ chans ∧ ∃ csB : ColdState,
        csB.flushOne c now (wOk c) = (cs1, false)
        ∧ alookup csB.pending c = alookup cs.pending c
        ∧ alookup csB.restored c = alookup cs.restored c
        ∧ (alookup csB.loaded c).or (alookup csB.disk c)
            = (alookup cs.loaded c).or (alookup cs.disk c)
        ∧ csB.coldTTL = cs.coldTTL := by
  intro chans
  induction chans with
  | nil =>
    intro cs _ hfl
    exact absurd (congrArg Prod.snd hfl) (by simp [flushAux])
  | cons c0 rest ih =>
    intro cs hnd hfl
    rw [List.nodup_cons] at hnd
    obtain ⟨hc0, hndr⟩ := hnd
    cases hstep : cs.flushOne c0 now (wOk c0) with
    | mk csA b =>
      cases b
      · rw [flushAux_cons_false cs csA now wOk c0 rest hstep] at hfl
        injection hfl with h1 h2
        injection h2 with h3
        subst h3
        rw [h1] at hstep
        exact ⟨List.mem_cons_self _ _, cs, hstep, rfl, rfl, rfl, rfl⟩
      · rw [flushAux_cons_true cs csA now wOk c0 rest hstep] at hfl
        obtain ⟨hcmem, csB, hB, hp, hr, ho, ht⟩ := ih csA hndr hfl
        have hne : c ≠ c0 := fun he => hc0 (he ▸ hcmem)
        obtain ⟨hp2, hr2, ho2, ht2⟩ :=
          flushOne_alookup_ne cs c0 c now (wOk c0) hne
        have hfst : (cs.flushOne c0 now (wOk c0)).1 = csA := by rw [hstep]
        rw [hfst] at hp2 hr2 ho2 ht2
        exact ⟨List.mem_cons_of_mem _ hcmem, csB, hB, hp.trans hp2,
          hr.trans hr2, ho.trans ho2, ht.trans ht2⟩

/-- A flushOne whose write succeeds reports success. -/
theorem flushOne_true_snd (cs : ColdState) (c : String) (now : Int) :
    (cs.flushOne c now true).2 = true := by
  by_cases hE : (cs.flushFile c now).isEmpty = true
  · rw [flushOne_eq_empty cs c now true hE]
  · have hE2 : (cs.flushFile c now).isEmpty = false := by
      revert hE
      cases (cs.flushFile c now).isEmpty <;> simp
    rw [flushOne_eq_write cs c now hE2]

/-- A successful flushOne clears the channel from pending and
restored. -/
theorem flushOne_true_clears (cs : ColdState) (c : String) (now : Int) :
    alookup ((cs.flushOne c now true).1).pending c = none
    ∧ alookup ((cs.flushOne c now true).1).restored c = none := by
  by_cases hE : (cs.flushFile c now).isEmpty = true
  · rw [flushOne_eq_empty cs c now true hE]
    dsimp only
    exact ⟨alookup_aerase_self _ _, alookup_aerase_self _ _⟩
  · have hE2 : (cs.flushFile c now).isEmpty = false := by
      revert hE
      cases (cs.flushFile c now).isEmpty <;> simp
    rw [flushOne_eq_write cs c now hE2]
    dsimp only
    exact ⟨alookup_aerase_self _ _, alookup_aerase_self _ _⟩

/-- C7: a flush that fails to write a channel's cold file returns that
channel as the error, leaves the channel's pending and restored binding
unchanged, and the retried flush targets a pointwise-identical cold
file for it, succeeds against a working disk, clears the channel from
pending and restored only then, and commits that same file. -/
theorem C7_failed_flush_recovery (cs : ColdState) (now : Int)
    (wOk : String → Bool) (c : String) (hwf : ColdWF cs)
    (hfail : (cs.flush now wOk).2 = some c) :
    alookup ((cs.flush now wOk).1).pending c = alookup cs.pending c
    ∧ alookup ((cs.flush now wOk).1).restored c = alookup cs.restored c
    ∧ (∀ fp, alookup (((cs.flush now wOk).1).flushFile c now) fp
        = alookup (cs.flushFile c now) fp)
    ∧ (((cs.flush now wOk).1).flushOne c now true).2 = true
    ∧ alookup ((((cs.flush now wOk).1).flushOne c now true).1).pending c = none
    ∧ alookup ((((cs.flush now wOk).1).flushOne c now true).1).restored c = none
    ∧ alookup ((((cs.flush now wOk).1).flushOne c now true).1).disk c
        = some (((cs.flush now wOk).1).flushFile c now) := by
  obtain ⟨hwfp, hwfl, hwfd⟩ := hwf
  set cs1 : ColdState := (cs.flush now wOk).1 with hcs1
  have hfl : cs.flush now wOk = (cs1, some c) := by
    rw [hcs1, ← hfail]
  rw [ColdState.flush] at hfl
  obtain ⟨hcmem, csB, hB, hpEq, hrEq, hoEq, htEq⟩ :=
    flushAux_fail now wOk c cs1 cs.flushChannels cs (List.nodup_dedup _) hfl
  obtain ⟨hE, hw0, hshape⟩ := flushOne_false_elim csB cs1 c now (wOk c) hB
  have hP1 : cs1.pending = csB.pending := by rw [hshape]
  have hR1 : cs1.restored = csB.restored := by rw [hshape]
  have hD1 : cs1.disk = csB.disk := by rw [hshape]
  have hT1 : cs1.coldTTL = csB.coldTTL := by rw [hshape]
  have hL1 : cs1.loaded = (if csB.wasCached c
      then ainsert (csB.loadedAfter c) c (csB.flushFile c now)
      else csB.loadedAfter c) := by rw [hshape]
  have hC1 : alookup cs1.pending c = alookup cs.pending c := by
    rw [hP1]; exact hpEq
  have hC2 : alookup cs1.restored c = alookup cs.restored c := by
    rw [hR1]; exact hrEq
  have hndp_cs : keysNodup ((alookup cs.pending c).getD []) :=
    keysNodup_of_wf_lookup hwfp c
  have hnd0_cs : keysNodup
      (((alookup cs.loaded c).or (alookup cs.disk c)).getD []) := by
    cases hl : alookup cs.loaded c with
    | some cf => simpa [Option.or] using hwfl (c, cf) (alookup_mem hl)
    | none =>
      cases hd : alookup cs.disk c with
      | some cf => simpa [Option.or] using hwfd (c, cf) (alookup_mem hd)
      | none => exact List.nodup_nil
  have hndpB : keysNodup ((alookup csB.pending c).getD []) := by
    rw [hpEq]; exact hndp_cs
  have hnd0B : keysNodup
      (((alookup csB.loaded c).or (alookup csB.disk c)).getD []) := by
    rw [hoEq]; exact hnd0_cs
  have hfileB : csB.flushFile c now = cs.flushFile c now := by
    unfold ColdState.flushFile ColdState.flushMerged
    rw [hoEq, hrEq, hpEq, htEq]
  have hpoint : ∀ fp, alookup (cs1.flushFile c now) fp
      = alookup (cs.flushFile c now) fp := by
    have hndp1 : keysNodup ((alookup cs1.pending c).getD []) := by
      rw [hP1]; exact hndpB
    by_cases hcache : csB.wasCached c = true
    · have ho1 : (alookup cs1.loaded c).or (alookup cs1.disk c)
          = some (csB.flushFile c now) := by
        rw [hL1, if_pos hcache, alookup_ainsert_self]
        rfl
      have hnd01 : keysNodup
          (((alookup cs1.loaded c).or (alookup cs1.disk c)).getD []) := by
        rw [ho1]
        exact keysNodup_flushFile csB c now hnd0B
      intro fp
      rw [flushFile_alookup cs1 c fp now hndp1 hnd01,
        flushFile_alookup cs c fp now hndp_cs hnd0_cs,
        hC1, hR1, hrEq, hT1, htEq, ho1, Option.getD_some]
      have hC3 : alookup (csB.flushFile c now) fp
          = fileLookupModel
              (alookup ((alookup cs.pending c).getD []) fp)
              (alookup
                (((alookup cs.loaded c).or (alookup cs.disk c)).getD []) fp)
              (fp ∈ (alookup cs.restored c).getD []) cs.coldTTL now := by
        rw [flushFile_alookup csB c fp now hndpB hnd0B, hpEq, hrEq, hoEq, htEq]
      rw [hC3]
      exact fileLookupModel_stable _ _ _ _ _
    · have hOnone : (alookup csB.loaded c).or (alookup csB.disk c) = none :=
        Option.not_isSome_iff_eq_none.mp hcache
      have hln : alookup csB.loaded c = none := by
        cases hl : alookup csB.loaded c with
        | none => rfl
        | some cf =>
          rw [hl] at hOnone
          exact absurd hOnone (by simp [Option.or])
      have hdn : alookup csB.disk c = none := by
        rw [hln] at hOnone
        exact hOnone
      have hloaded1 : cs1.loaded = csB.loaded := by
        rw [hL1, if_neg hcache]
        unfold ColdState.loadedAfter
        rw [hln, hdn]
      have ho1 : (alookup cs1.loaded c).or (alookup cs1.disk c) = none := by
        rw [hloaded1, hD1, hln, hdn]
        rfl
      have hnd01 : keysNodup
          (((alookup cs1.loaded c).or (alookup cs1.disk c)).getD []) := by
        rw [ho1]
        exact List.nodup_nil
      intro fp
      rw [← hfileB, flushFile_alookup cs1 c fp now hndp1 hnd01,
        flushFile_alookup csB c fp now hndpB hnd0B,
        hP1, hR1, hT1, ho1, hOnone]
  have hne7 : (cs1.flushFile c now).isEmpty = false := by
    cases hcf : csB.flushFile c now with
    | nil =>
      rw [hcf] at hE
      exact absurd hE (by simp)
    | cons p rest =>
      have hlk : alookup (csB.flushFile c now) p.1 = some p.2 := by
        rw [hcf]
        obtain ⟨k, v⟩ := p
        rw [alookup_cons, if_pos rfl]
      have hlk1 : alookup (cs1.flushFile c now) p.1 = some p.2 := by
        rw [hpoint p.1, ← hfileB]
        exact hlk
      exact isEmpty_false_of_alookup hlk1
  refine ⟨hC1, hC2, hpoint, flushOne_true_snd cs1 c now,
    (flushOne_true_clears cs1 c now).1, (flushOne_true_clears cs1 c now).2, ?_⟩
  rw [flushOne_eq_write cs1 c now hne7]
  exact alookup_ainsert_self _ _ _

/-- Witness for C7: one buffered eviction, a flush against a failing
disk, and the recovery facts at the failing channel. -/
theorem C7_failed_flush_recovery_witness :
    ColdWF ((NewColdStorage [] 10).evict "a" "f" [((1 : Int), some ⟨3, 1, 0⟩)] 5)
    ∧ ((((NewColdStorage [] 10).evict "a" "f" [((1 : Int), some ⟨3, 1, 0⟩)] 5).flush 7
        (fun _ => false)).2 = some "a")
    ∧ (alookup (((((NewColdStorage [] 10).evict "a" "f"
          [((1 : Int), some ⟨3, 1, 0⟩)] 5).flush 7 (fun _ => false)).1)).pending "a"
        = alookup (((NewColdStorage [] 10).evict "a" "f"
          [((1 : Int), some ⟨3, 1, 0⟩)] 5)).pending "a"
      ∧ alookup (((((NewColdStorage [] 10).evict "a" "f"
          [((1 : Int), some ⟨3, 1, 0⟩)] 5).flush 7 (fun _ => false)).1)).restored "a"
        = alookup (((NewColdStorage [] 10).evict "a" "f"
          [((1 : Int), some ⟨3, 1, 0⟩)] 5)).restored "a"
      ∧ (∀ fp, alookup ((((((NewColdStorage [] 10).evict "a" "f"
            [((1 : Int), some ⟨3, 1, 0⟩)] 5).flush 7 (fun _ => false)).1)).flushFile
            "a" 7) fp
          = alookup (((NewColdStorage [] 10).evict "a" "f"
            [((1 : Int), some ⟨3, 1, 0⟩)] 5).flushFile "a" 7) fp)
      ∧ ((((((NewColdStorage [] 10).evict "a" "f"
            [((1 : Int), some ⟨3, 1, 0⟩)] 5).flush 7 (fun _ => false)).1)).flushOne
            "a" 7 true).2 = true
      ∧ alookup (((((((NewColdStorage [] 10).evict "a" "f"
            [((1 : Int), some ⟨3, 1, 0⟩)] 5).flush 7 (fun _ => false)).1)).flushOne
            "a" 7 true).1).pending "a" = none
      ∧ alookup (((((((NewColdStorage [] 10).evict "a" "f"
            [((1 : Int), some ⟨3, 1, 0⟩)] 5).flush 7 (fun _ => false)).1)).flushOne
            "a" 7 true).1).restored "a" = none
      ∧ alookup (((((((NewColdStorage [] 10).evict "a" "f"
            [((1 : Int), some ⟨3, 1, 0⟩)] 5).flush 7 (fun _ => false)).1)).flushOne
            "a" 7 true).1).disk "a"
        = some ((((((NewColdStorage [] 10).evict "a" "f"
            [((1 : Int), some ⟨3, 1, 0⟩)] 5).flush 7 (fun _ => false)).1)).flushFile
            "a" 7)) :=
  ⟨by decide, by decide,
   C7_failed_flush_recovery
     ((NewColdStorage [] 10).evict "a" "f" [((1 : Int), some ⟨3, 1, 0⟩)] 5)
     7 (fun _ => false) "a" (by decide) (by decide)⟩

/-! Snapshot codec (FileManager).  The decompressed snapshot text is
modelled as a JSON value; JSON parsing of well-formed text and the
compressor are bijective plumbing outside the model (the theorems use
the identity compressor, as the FileManager tests do).  The load
cascade below follows LoadFromFile of
internal/statistic/FileManager.go: try V4 (a non-nil channels map),
then V2 (non-nil trend_stats and personal_stats at top level), then V1
(a bare id-to-record map), else fail.  Unmarshalling is modelled at
the trend level that GetStatistic reads: personal-stat payloads are
checked only for JSON shape, and the V3 lastSeen backfill, which only
touches personal stats, is not modelled. -/

inductive Json where
  | num (n : Int)
  | str (s : String)
  | jbool (b : Bool)
  | null
  | arr (xs : List Json)
  | obj (fields : List (String × Json))

/-- One integer field of a JSON object as encoding/json fills a Go int:
absent means the zero value, a number is its value, any other shape is
a decode error. -/
def fieldInt (fields : List (String × Json)) (k : String) : Option Int :=
  match alookup fields k with
  | none => some 0
  | some (Json.num n) => some n
  | some _ => none

/-- Unmarshal a JSON value into a StatRecord (exported fields Views,
Clicks, Ftr; unknown fields ignored). -/
def decodeStatRecord (j : Json) : Option StatRecord :=
  match j with
  | Json.obj fields => do
    let v ← fieldInt fields "Views"
    let c ← fieldInt fields "Clicks"
    let f ← fieldInt fields "Ftr"
    pure ⟨v, c, f⟩
  | _ => none

/-- Unmarshal into a *StatRecord: JSON null is a nil record, which
PutData later skips. -/
def decodeStatRecordPtr (j : Json) : Option (Option StatRecord) :=
  match j with
  | Json.null => some none
  | _ => (decodeStatRecord j).map some

/-- Unmarshal a JSON object into map[int]*StatRecord: every key must
parse as an integer (strconv, sign allowed) and every value as a
*StatRecord. -/
def decodeTrendMap (j : Json) : Option (List (Int × Option StatRecord)) :=
  match j with
  | Json.obj fields =>
    fields.foldr
      (fun p acc => do
        let rest ← acc
        let k ← atoi p.1
        let v ← decodeStatRecordPtr p.2
        pure ((k, v) :: rest))
      (some [])
  | _ => none

/-- The trend table of one V4 channel object: a missing or null
trend_stats map is replaced by an empty one, as LoadFromFile does. -/
def decodeChannelDataTrend (j : Json) : Option (List (Int × Option StatRecord)) :=
  match j with
  | Json.obj fields =>
    match alookup fields "trend_stats" with
    | none => some []
    | some Json.null => some []
    | some tj => decodeTrendMap tj
  | _ => none

/-- The V4 attempt: an object whose channels field is an object of
channel-data objects (the err == nil and Channels != nil guard),
returning each channel's trend table. -/
def tryV4 (j : Json) :
    Option (List (String × List (Int × Option StatRecord))) :=
  match j with
  | Json.obj fields =>
    match alookup fields "channels" with
    | some (Json.obj chans) =>
      chans.foldr
        (fun p acc => do
          let rest ← acc
          let t ← decodeChannelDataTrend p.2
          pure ((p.1, t) :: rest))
        (some [])
    | _ => none
  | _ => none

/-- The V2 attempt: trend_stats and personal_stats both present and
non-nil at top level (the personal map is checked for shape only). -/
def tryV2 (j : Json) : Option (List (Int × Option StatRecord)) :=
  match j with
  | Json.obj fields =>
    match alookup fields "trend_stats", alookup fields "personal_stats" with
    | some tj, some (Json.obj _) => decodeTrendMap tj
    | _, _ => none
  | _ => none

/-- The decode cascade of LoadFromFile. -/
inductive LoadResult where
  | v4 (chans : List (String × List (Int × Option StatRecord)))
  | v2 (trend : List (Int × Option StatRecord))
  | v1 (trend : List (Int × Option StatRecord))
  | failed

def decodeSnapshot (j : Json) : LoadResult :=
  match tryV4 j with
  | some chans => LoadResult.v4 chans
  | none =>
    match tryV2 j with
    | some trend => LoadResult.v2 trend
    | none =>
      match decodeTrendMap j with
      | some trend => LoadResult.v1 trend
      | none => LoadResult.failed

/-- PutChannelData at the trend level: getOrCreateChannel, then
statistic.PutData (the personal-store put touches state outside the
trend-level service model). -/
def StatisticService.putChannelData (ss : StatisticService)
    (channel : String) (trend : List (Int × Option StatRecord)) :
    StatisticService :=
  match ss.ensureChannel channel with
  | none => ss
  | some ss1 =>
    match alookup ss1.channels channel with
    | none => ss1
    | some st =>
      { ss1 with channels := ainsert ss1.channels channel (st.putData trend) }

/-- LoadFromFile on decompressed JSON: V4 puts every listed channel, V2
and V1 put the default channel (V1 with an empty personal map), and a
failed cascade is the returned error. -/
def FileManagerLoad (ss : StatisticService) (j : Json) :
    Option StatisticService :=
  match decodeSnapshot j with
  | LoadResult.v4 chans =>
    some (chans.foldl (fun s p => s.putChannelData p.1 p.2) ss)
  | LoadResult.v2 trend => some (ss.putChannelData DefaultChannel trend)
  | LoadResult.v1 trend => some (ss.putChannelData DefaultChannel trend)
  | LoadResult.failed => none

/-! The V5 writer.  The byte-level helpers follow
internal/models/PersonalStats.go (byteOrder = binary.LittleEndian,
writeString = u16 length + UTF-8 bytes, writeStatRecords = u32 count
then u32 id and three i32 fields per record) and StatStore.WriteBinaryTo.
Bytes are modelled as naturals below 256. -/

def u16le (n : Nat) : List Nat := [n % 256, n / 256 % 256]

def u32le (n : Nat) : List Nat :=
  [n % 256, n / 256 % 256, n / 65536 % 256, n / 16777216 % 256]

/-- Two's-complement little-endian int32. -/
def i32le (n : Int) : List Nat := u32le (n % 4294967296).toNat

/-- writeString: u16 length prefix then the bytes (the channel and
fingerprint names here are ASCII, where the rune codes are the UTF-8
bytes). -/
def writeString (s : String) : List Nat :=
  u16le s.length ++ s.data.map Char.toNat

/-- writeStatRecords over the store's map in iteration order. -/
def writeStatRecords (data : List (Nat × StatRecord)) : List Nat :=
  u32le data.length
    ++ data.foldr
      (fun p acc =>
        u32le p.1 ++ i32le p.2.views ++ i32le p.2.clicks ++ i32le p.2.ftr ++ acc)
      []

/-- The four magic bytes "SSD5". -/
def v5Magic : List Nat := [83, 83, 68, 53]

/-- Modelled from the spec: the V5 snapshot writer of section 4.H, as
the FileManager tests pin it down — magic "SSD5", one version byte 5,
then per channel the length-prefixed name, the StatStore payload in
writeStatRecords layout, and the fingerprint section, which is empty
here because the trend-level service model carries no personal
directory. -/
def saveV5 (ss : StatisticService) : List Nat :=
  v5Magic ++ [5]
    ++ ss.channels.foldr
      (fun p acc => writeString p.1 ++ writeStatRecords p.2.data ++ u32le 0 ++ acc)
      []

/-- SaveToFile: serialize the snapshot and run it through the
compressor. -/
def SaveToFile (compress : List Nat → List Nat) (ss : StatisticService) :
    List Nat :=
  compress (saveV5 ss)

/-- The S5 snapshot: the bare V1 JSON map from the claim. -/
def v1Snapshot : Json :=
  Json.obj [("1", Json.obj
    [("Views", Json.num 42), ("Clicks", Json.num 5), ("Ftr", Json.num 0)])]

/-- C5: loading the bare V1 map falls through the V4 and V2 attempts to
the V1 branch and lands in the default channel, where id 1 reads back
as 42 views, 5 clicks, 0 ftr; a subsequent save through the identity
compressor begins with the magic bytes "SSD5", and indeed every save
does (only V5 is written). -/
theorem C5_v1_migration_v5_magic :
    (∃ ss1, FileManagerLoad (NewStatisticService 1000 (-1) 10) v1Snapshot
        = some ss1
      ∧ (∃ d, ss1.getStatistic DefaultChannel = some d
          ∧ alookup d 1 = some ⟨42, 5, 0⟩)
      ∧ (SaveToFile (fun bs => bs) ss1).take 4 = v5Magic)
    ∧ ∀ ss2 : StatisticService,
        (SaveToFile (fun bs => bs) ss2).take 5 = v5Magic ++ [5] := by
  refine ⟨⟨_, rfl, ⟨_, rfl, by decide⟩, by decide⟩, fun ss2 => rfl⟩

end SSD
